import Mathlib

/-!
Verification development for the toylang1 grammar toolkit and parsing core.

The Rust sources are shallowly embedded:

* rule references (`Rc<RefCell<Rule>>`) are represented by rule *names*,
  mirroring the source, whose `PartialEq` for rules and rule parts compares
  names only and whose design note prescribes id/name-keyed references;
* `HashSet<TokenKind>` is represented by a duplicate-free `List TokenKind`
  (`TkSet`); the source only ever queries membership, extends, and
  intersects sets, so insertion-ordered duplicate-free lists are a faithful
  model, and `extend`'s length comparison is kept verbatim;
* `HashMap` is represented by an association list with insert-overwrite
  semantics; lookups of absent keys (which panic in the source via `Index`
  or `unwrap`) default to the empty set and are only exercised on grammars
  that pass validation, where every queried key is present;
* Rust panics (`panic!`, `unwrap()`, `unreachable!`, out-of-bounds
  indexing) are modelled by `Option`: a `none` result means the source
  panics;
* loops whose termination is not structural take an explicit fuel argument
  or compute a sufficient internal fuel from the input.
-/

namespace Toy

/-- Shorthand for the built-in string type, usable alongside the
`TokenKind.String` constructor. -/
abbrev Str := String

instance {ε α : Type} [DecidableEq ε] [DecidableEq α] : DecidableEq (Except ε α) := fun
  | .ok a, .ok b =>
    if h : a = b then isTrue (by rw [h])
    else isFalse (fun hh => h (Except.ok.inj hh))
  | .ok _, .error _ => isFalse (fun hh => Except.noConfusion hh)
  | .error _, .ok _ => isFalse (fun hh => Except.noConfusion hh)
  | .error a, .error b =>
    if h : a = b then isTrue (by rw [h])
    else isFalse (fun hh => h (Except.error.inj hh))

/-- `TokenKind` from src/lang/lexer/token.rs: the closed token alphabet,
with the `Error`, `Eof` and `Epsilon` sentinels. -/
inductive TokenKind where
  | Error
  | Eof
  | Epsilon
  | Id
  | Fn
  | Return
  | Int
  | String
  | LeftParen
  | RightParen
  | LeftBraces
  | RightBraces
  | LeftBracket
  | RightBracket
  | Semicolon
  | Comma
  | Equal
  | Slash
  | Star
  | Minus
  | Plus
deriving DecidableEq, Repr

namespace TokenKind

/-- `TokenKind::values` from token.rs. -/
def values : List TokenKind :=
  [Error, Eof, Epsilon, Id, Fn, Return, Int, String, LeftParen, RightParen,
   LeftBraces, RightBraces, LeftBracket, RightBracket, Semicolon, Comma,
   Equal, Slash, Star, Minus, Plus]

/-- `TokenKind::name` from token.rs (lower-case names; note the source's
"integer" for `Int` and the "lef_braces" typo). -/
def name : TokenKind → Str
  | Error => "error"
  | Eof => "eof"
  | Epsilon => "epsilon"
  | Id => "id"
  | Fn => "fn"
  | Return => "return"
  | Int => "integer"
  | String => "string"
  | LeftParen => "left_paren"
  | RightParen => "right_paren"
  | LeftBraces => "lef_braces"
  | RightBraces => "right_braces"
  | LeftBracket => "left_brackets"
  | RightBracket => "right_brackets"
  | Semicolon => "semicolon"
  | Comma => "comma"
  | Equal => "equal"
  | Slash => "slash"
  | Star => "star"
  | Minus => "minus"
  | Plus => "plus"

/-- `TokenKind::upper_name` from token.rs. -/
def upperName : TokenKind → Str
  | Error => "ERROR"
  | Eof => "EOF"
  | Epsilon => "EPSILON"
  | Id => "ID"
  | Fn => "FN"
  | Return => "RETURN"
  | Int => "INT"
  | String => "STRING"
  | LeftParen => "LEFT_PAREN"
  | RightParen => "RIGHT_PAREN"
  | LeftBraces => "LEFT_BRACES"
  | RightBraces => "RIGHT_BRACES"
  | LeftBracket => "LEFT_BRACKETS"
  | RightBracket => "RIGHT_BRACKETS"
  | Semicolon => "SEMICOLON"
  | Comma => "COMMA"
  | Equal => "EQUAL"
  | Slash => "SLASH"
  | Star => "STAR"
  | Minus => "MINUS"
  | Plus => "PLUS"

/-- `TokenKind::from_repr` from token.rs. -/
def fromRepr (repr : Str) : Except Str TokenKind :=
  if repr = "fn" then .ok Fn
  else if repr = "return" then .ok Return
  else if repr = "(" then .ok LeftParen
  else if repr = ")" then .ok RightParen
  else if repr = "[" then .ok LeftBracket
  else if repr = "]" then .ok RightBracket
  else if repr = "\x7b" then .ok LeftBraces
  else if repr = "\x7d" then .ok RightBraces
  else if repr = ";" then .ok Semicolon
  else if repr = "," then .ok Comma
  else if repr = "=" then .ok Equal
  else if repr = "/" then .ok Slash
  else if repr = "*" then .ok Star
  else if repr = "-" then .ok Minus
  else if repr = "+" then .ok Plus
  else .error ("unknown TokenKind representation: " ++ repr)

/-- `TokenKind::is_epsilon` from token.rs. -/
def isEpsilon (k : TokenKind) : Bool := k = Epsilon

end TokenKind

/-- `RulePart` from src/lang/parser/rule.rs.  The `Rule` variant holds an
`Rc<RefCell<Rule>>` in the source; equality of rule parts is by rule name
(`PartialEq for RulePart`), so the reference is embedded as the name. -/
inductive RulePart where
  | rule (name : Str)
  | token (kind : TokenKind)
deriving DecidableEq, Repr

namespace RulePart

/-- `RulePart::is_token`. -/
def isToken : RulePart → Bool
  | .rule _ => false
  | .token _ => true

/-- `RulePart::is_rule`. -/
def isRule : RulePart → Bool
  | .rule _ => true
  | .token _ => false

/-- `RulePart::name`: rule name, or the token kind's upper-case name. -/
def name : RulePart → Str
  | .rule n => n
  | .token k => k.upperName

/-- `RulePart::is_epsilon`, used by rules.rs (not present in the shown
rule.rs excerpt but its meaning is fixed by `TokenKind::is_epsilon`):
a part is epsilon iff it is the `Epsilon` token. -/
def isEpsilon : RulePart → Bool
  | .rule _ => false
  | .token k => k.isEpsilon

end RulePart

/-- `Rule` from src/lang/parser/rule.rs: a named nonterminal with its
recursion-elimination number and ordered alternatives. -/
structure Rule where
  name : Str
  recursionEliminationNum : Nat
  alternatives : List (List RulePart)
deriving DecidableEq, Repr

namespace Rule

/-- The per-alternative key used by `Rule::validate`'s duplicate check:
part names (rule name / `TokenKind::name`) joined with "-". -/
def altKey (alt : List RulePart) : Str :=
  String.intercalate "-"
    (alt.map (fun p => match p with
      | .rule n => n
      | .token k => k.name))

/-- `Rule::validate` from rule.rs.  Checks, in order: duplicate
alternatives (by joined part names), all alternatives starting with a
self-reference, a single-part self-reference alternative, an alternative
of length > 1 containing epsilon, and an empty alternatives list. -/
def validate (r : Rule) : Except Str Unit :=
  let keys := r.alternatives.map altKey
  if keys.dedup.length ≠ r.alternatives.length then
    .error "duplicates"
  else if ¬ r.alternatives.any (fun alt =>
      alt.isEmpty || (alt.headD (.token .Epsilon)).isToken ||
        decide ((alt.headD (.token .Epsilon)).name ≠ r.name)) then
    .error "infinitely recursive rule: all sub-rules recurse to the same rule"
  else if r.alternatives.any (fun alt =>
      alt.length = 1 && (alt.headD (.token .Epsilon)).isRule &&
        decide ((alt.headD (.token .Epsilon)).name = r.name)) then
    .error "pointless rule: a singly sub-rule refers to the same rule"
  else if r.alternatives.any (fun alt =>
      decide (1 < alt.length) && alt.contains (.token .Epsilon)) then
    .error "alternative with len more than 1 contains epsilon"
  else if r.alternatives.isEmpty then
    .error "empty rule"
  else
    .ok ()

end Rule

/-- `Rules` from src/lang/parser/rules.rs.  The analysis-set caches
(`first_set`, `follow_set`, `start_set` behind `RefCell<Option<_>>`) are
not represented: the cached computations are pure functions of the rule
list, so caching and `clear_cache` are observationally a no-op. -/
structure Rules where
  rules : List Rule
deriving DecidableEq, Repr

namespace Rules

/-- `Rules::has_rule`. -/
def hasRule (g : Rules) (name : Str) : Bool :=
  g.rules.any (fun r => r.name = name)

/-- Look a rule up by name (first match, as every name-keyed search in the
source does via `iter().find`). -/
def findRule (g : Rules) (name : Str) : Option Rule :=
  g.rules.find? (fun r => r.name = name)

end Rules

/-- Split a list at the first element satisfying `p`:
`some (pre, x, post)` with `xs = pre ++ x :: post`, no element of `pre`
satisfying `p`, and `p x`; `none` when no element satisfies `p`. -/
def splitFirst (p : α → Bool) : List α → Option (List α × α × List α)
  | [] => none
  | x :: xs =>
    if p x then some ([], x, xs)
    else
      match splitFirst p xs with
      | none => none
      | some (pre, y, post) => some (x :: pre, y, post)

/-- Split a list at the last element satisfying `p`:
`some (pre, x, post)` with `xs = pre ++ x :: post`, `p x`, and no element
of `post` satisfying `p`; `none` when no element satisfies `p`. -/
def splitLast (p : α → Bool) : List α → Option (List α × α × List α)
  | [] => none
  | x :: xs =>
    match splitLast p xs with
    | some (pre, y, post) => some (x :: pre, y, post)
    | none => if p x then some ([], x, xs) else none

/-- The loop of Rust's `Iterator::partition_in_place` (used by
`Rules::eliminate_direct_left_recursions0` on the alternatives of a rule):
repeatedly find the first element not satisfying `p` and swap it with the
last element satisfying `p`, shrinking to the range strictly between the
two; the reordering is *not* stable.  The fuel is the list length, which
bounds the number of swap rounds. -/
def partitionIPGo (p : α → Bool) : Nat → List α → List α
  | 0, xs => xs
  | fuel + 1, xs =>
    match splitFirst (fun x => !p x) xs with
    | none => xs
    | some (ts, f, rest) =>
      match splitLast p rest with
      | none => xs
      | some (mid, t, fs) => ts ++ t :: (partitionIPGo p fuel mid ++ f :: fs)

/-- Rust's `Iterator::partition_in_place`: the reordered list together with
the returned count of elements satisfying `p` (the partition point). -/
def partitionInPlace (p : α → Bool) (xs : List α) : List α × Nat :=
  (partitionIPGo p xs.length xs, xs.countP p)

namespace Rules

/-- `merge_recursion_elimination_rule_to_number` from rules.rs: record the
rule's number under its name unless already present, then recurse into the
rules referenced by its parts that are not yet recorded.  References are
resolved by name in the grammar; the fuel `g.rules.length + 1` covers the
maximal chain of fresh insertions. -/
def mergeNums (g : Rules) : Nat → List (Str × Nat) → Rule → List (Str × Nat)
  | 0, numbers, _ => numbers
  | fuel + 1, numbers, r =>
    let numbers :=
      if numbers.any (fun e => e.fst = r.name) then numbers
      else numbers ++ [(r.name, r.recursionEliminationNum)]
    r.alternatives.foldl (fun nums alt =>
      alt.foldl (fun nums part =>
        match part with
        | .token _ => nums
        | .rule n =>
          if nums.any (fun e => e.fst = n) then nums
          else
            match g.findRule n with
            | some r2 => mergeNums g fuel nums r2
            | none => nums) nums) numbers

/-- Insert into a sorted list of numbers (ascending). -/
def insertSorted (x : Nat) : List Nat → List Nat
  | [] => [x]
  | y :: ys => if x ≤ y then x :: y :: ys else y :: insertSorted x ys

/-- Insertion sort, ascending.  `Vec::sort` on numbers produces the same
list: a sorted permutation of numbers is unique. -/
def sortNats : List Nat → List Nat
  | [] => []
  | x :: xs => insertSorted x (sortNats xs)

/-- `get_sorted_recursion_elimination_numbers` from rules.rs. -/
def sortedNums (g : Rules) : List Nat :=
  sortNats ((g.rules.foldl (fun nums r => mergeNums g (g.rules.length + 1) nums r) []).map
    Prod.snd)

/-- `Rules::max_recursion_elimination_num`. -/
def maxNum (g : Rules) : Nat :=
  (sortedNums g).getLast?.getD 0

/-- The duplicate-name scan of `Rules::validate`: the first name whose
`HashSet::insert` returns false. -/
def firstDupName (seen : List Str) : List Str → Option Str
  | [] => none
  | n :: rest => if n ∈ seen then some n else firstDupName (seen ++ [n]) rest

/-- The duplicate-recursion-number scan of `Rules::validate` over the
sorted number list. -/
def firstAdjacentDup : List Nat → Option Nat
  | [] => none
  | [_] => none
  | a :: b :: rest => if a = b then some a else firstAdjacentDup (b :: rest)

/-- Total number of rule parts in the grammar; used as fuel for the
missing-rule walk. -/
def totalParts (g : Rules) : Nat :=
  (g.rules.map (fun r => (r.alternatives.map List.length).sum)).sum

/-- The part-walk of `find_missing_rule` from rules.rs: scan parts in
order; a rule part whose name is absent from the grammar is an error,
otherwise the referenced rule is expanded once (guarded by `seen`).
Each call consumes one unit of fuel; `totalParts + rules + 2` suffices. -/
def findMissingGo (g : Rules) : Nat → List RulePart → List Str →
    Except Str Unit × List Str
  | 0, _, seen => (.ok (), seen)
  | _ + 1, [], seen => (.ok (), seen)
  | fuel + 1, .token _ :: rest, seen => findMissingGo g fuel rest seen
  | fuel + 1, .rule n :: rest, seen =>
    if ¬ g.hasRule n then (.error ("missing rule: " ++ n), seen)
    else if n ∈ seen then findMissingGo g fuel rest seen
    else
      match g.findRule n with
      | none => (.error ("missing rule: " ++ n), seen)
      | some r2 =>
        match findMissingGo g fuel r2.alternatives.flatten (seen ++ [n]) with
        | (.error e, seen2) => (.error e, seen2)
        | (.ok _, seen2) => findMissingGo g fuel rest seen2

/-- The top loop of the missing-rule check of `Rules::validate`. -/
def findMissing (g : Rules) : List Rule → List Str → Except Str Unit
  | [], _ => .ok ()
  | r :: rest, seen =>
    if r.name ∈ seen then findMissing g rest seen
    else
      match findMissingGo g (totalParts g + g.rules.length + 2)
          r.alternatives.flatten (seen ++ [r.name]) with
      | (.error e, _) => .error e
      | (.ok _, seen2) => findMissing g rest seen2

/-- `Rules::validate` from rules.rs: per-rule validation, duplicate names,
duplicate recursion numbers, missing referenced rules, empty alternative
lists and empty alternatives, in that order.  On an empty grammar the
duplicate-number loop computes `numbers.len() - 1`, which underflows: the
source panics, modelled by `none`. -/
def validate (g : Rules) : Option (Except Str Unit) :=
  match g.rules.find? (fun r => !(Rule.validate r).isOk) with
  | some r => some (.error ("invalid rule, rule_name=" ++ r.name))
  | none =>
  match firstDupName [] (g.rules.map Rule.name) with
  | some n => some (.error ("duplicate rule: " ++ n))
  | none =>
  let numbers := sortedNums g
  if numbers.length = 0 then none
  else
  match firstAdjacentDup numbers with
  | some k => some (.error ("duplicate recursion elimination rule: " ++ toString k))
  | none =>
  match findMissing g g.rules [] with
  | .error e => some (.error e)
  | .ok _ =>
  match g.rules.find? (fun r => r.alternatives.isEmpty) with
  | some r => some (.error ("rule has has no alternative: " ++ r.name))
  | none =>
  match g.rules.find? (fun r => r.alternatives.any List.isEmpty) with
  | some r => some (.error ("rule has empty alternative: " ++ r.name))
  | none => some (.ok ())

/-- The epsilon-alternative test of `Rules::put_epsilon_last`: a
single-part alternative whose part is the `EPSILON` token. -/
def isEpsAlt (alt : List RulePart) : Bool :=
  alt.length = 1 && (alt.headD (.token .Epsilon)).isEpsilon

/-- The per-rule body of `Rules::put_epsilon_last`: for a rule with more
than one alternative, the first alternative that is exactly `[EPSILON]` is
*swapped* with the last alternative. -/
def putEpsilonLastRule (r : Rule) : Rule :=
  let len := r.alternatives.length
  if 1 < len then
    match r.alternatives.findIdx? isEpsAlt with
    | none => r
    | some i =>
      if i ≠ len - 1 then
        ⟨r.name, r.recursionEliminationNum,
          (r.alternatives.set i ((r.alternatives.getD (len - 1) []))).set (len - 1)
            (r.alternatives.getD i [])⟩
      else r
  else r

/-- `Rules::put_epsilon_last` from rules.rs. -/
def putEpsilonLast (g : Rules) : Rules :=
  ⟨g.rules.map putEpsilonLastRule⟩

/-- `Rules::find_new_indexed_name`: the source scans `name__0`,
`name__1`, ... for the first name not present in the grammar.  Among the
first `rules.length + 1` candidates at least one is unused (they are
pairwise distinct and at most `rules.length` names are taken), so the
bounded search below returns exactly the index the source finds; the
fallback branch is unreachable. -/
def findNewIndexedName (g : Rules) (name : Str) : Str :=
  match (List.range (g.rules.length + 1)).find?
      (fun i => !g.hasRule (name ++ "__" ++ toString i)) with
  | some i => name ++ "__" ++ toString i
  | none => name ++ "__"

end Rules

/-- The alternative predicate of direct-left-recursion elimination: the
alternative's first part refers back to the rule named `name` (in the
source, the `try_borrow`-failure "risky bet" detects the self-`Rc` and
the name comparison covers the rest; by-name equality captures both). -/
def recAltPred (name : Str) (alt : List RulePart) : Bool :=
  !alt.isEmpty && (alt.headD (.token .Epsilon)).isRule &&
    decide ((alt.headD (.token .Epsilon)).name = name)

/-- `has_recursive_rule` from rules.rs. -/
def hasRecursiveRule (r : Rule) : Bool :=
  if r.alternatives.isEmpty then false
  else r.alternatives.any (recAltPred r.name)

namespace Rules

/-- One round of the loop inside
`Rules::eliminate_direct_left_recursions0`: find the first rule with a
directly left-recursive alternative, partition its alternatives in place
(the partition predicate matches alternatives whose head is a rule part
referring to the rule itself: the `try_borrow` "risky bet" detects the
self-`Rc`, and the name comparison covers the rest, so by-name equality
captures both), drain the recursive alternatives into a fresh rule
`name__k → tail name__k | ... | EPSILON`, and append `name__k` to both the
remaining alternatives and the rule list.  `none` when no rule is
directly recursive. -/
def eliminateDirectStep (num : Nat) (g : Rules) : Option Rules :=
  match splitFirst hasRecursiveRule g.rules with
  | none => none
  | some (pre, r, post) =>
    let newName := findNewIndexedName g r.name
    let (parted, idx) := partitionInPlace (recAltPred r.name) r.alternatives
    let recursiveAlts := (parted.take idx).map (fun alt => alt.drop 1 ++ [.rule newName])
    let remaining := (parted.drop idx).map (fun alt => alt ++ [.rule newName])
    let newRule : Rule := ⟨newName, num, recursiveAlts ++ [[.token .Epsilon]]⟩
    some ⟨pre ++ ⟨r.name, r.recursionEliminationNum, remaining⟩ :: post ++ [newRule]⟩

/-- The `loop` of `eliminate_direct_left_recursions0`, threading the fresh
recursion-number counter.  Each round permanently removes the direct
recursion of one rule and appends a non-recursive fresh rule, so the
number of rounds is at most the number of rules: `rules.length + 1` fuel
always suffices. -/
def eliminateDirectGo : Nat → Nat → Rules → Rules
  | 0, _, g => g
  | fuel + 1, num, g =>
    match eliminateDirectStep num g with
    | none => g
    | some g2 => eliminateDirectGo fuel (num + 1) g2

/-- `Rules::eliminate_direct_left_recursions0` from rules.rs.  The final
`validate` panics (`none`) when the transformed grammar is invalid.  The
returned `any_change` flag is overwritten by plain assignment for every
rule examined; the final pass over the rules (the one that finds no
recursive rule) leaves it `false`, and with no rules it is never set, so
the function always returns `false`. -/
def eliminateDirectLeftRecursions0 (g : Rules) : Option (Rules × Bool) :=
  let g2 := eliminateDirectGo (g.rules.length + 1) (maxNum g + 1) g
  match validate g2 with
  | none => none
  | some (.error _) => none
  | some (.ok _) => some (g2, false)

/-- `Rules::eliminate_direct_left_recursions`:
`while self.eliminate_direct_left_recursions0() {}`.  Since `..0` always
returns `false`, the body runs exactly once. -/
def eliminateDirectLeftRecursions (g : Rules) : Option Rules :=
  (eliminateDirectLeftRecursions0 g).map Prod.fst

/-- `Rules::try_find_rule_by_recursion_num`. -/
def tryFindRuleByNum (g : Rules) (num : Nat) : Option Rule :=
  g.rules.find? (fun r => r.recursionEliminationNum = num)

/-- `Rules::find_i_and_s`: the smallest `i` in `1..=max_num` such that the
rule with recursion number `i` has an alternative whose head refers to a
rule with recursion number `s < i`; returns `(i, alt_index, s)`.  As in
the source, `s` is scanned before alternatives, and alternatives in
order. -/
def findIAndS (g : Rules) : Option (Nat × Nat × Nat) :=
  (List.range' 1 (maxNum g)).findSome? (fun i =>
    match tryFindRuleByNum g i with
    | none => none
    | some ruleI =>
      (List.range i).findSome? (fun s =>
        match tryFindRuleByNum g s with
        | none => none
        | some ruleS =>
          (List.range ruleI.alternatives.length).findSome? (fun altNo =>
            let alt := ruleI.alternatives.getD altNo []
            if !alt.isEmpty && (alt.headD (.token .Epsilon)).isRule &&
                decide ((alt.headD (.token .Epsilon)).name = ruleS.name) then
              some (i, altNo, s)
            else none)))

/-- `Rules::eliminate_indirect_left_recursions` from rules.rs: run direct
elimination, find `(i, alt, s)`, remove that alternative from the rule
with recursion number `i`, and substitute — due to the `break` at the end
of the loop body, only the FIRST alternative of rule `s` is substituted,
and the fixed alternative is pushed onto `self.rules[i]`, the rule at
*vector index* `i` (not necessarily the rule with recursion number `i`).
`put_epsilon_last` runs only when a substitution happened; the final
`validate` panic is `none`. -/
def eliminateIndirectLeftRecursions (g0 : Rules) : Option (Rules × Bool) :=
  match eliminateDirectLeftRecursions g0 with
  | none => none
  | some g =>
    match findIAndS g with
    | none =>
      match validate g with
      | some (.ok _) => some (g, false)
      | _ => none
    | some (i, altIdx, s) =>
      match tryFindRuleByNum g i with
      | none => none
      | some ruleI =>
        let removed := ruleI.alternatives.getD altIdx []
        let g2 : Rules := ⟨g.rules.map (fun r =>
          if r.name = ruleI.name then
            ⟨r.name, r.recursionEliminationNum, r.alternatives.eraseIdx altIdx⟩
          else r)⟩
        match removed with
        | [] => none
        | recPart :: rest =>
          match tryFindRuleByNum g2 s with
          | none => none
          | some ruleS =>
            if recPart.name ≠ ruleS.name then none
            else
              match ruleS.alternatives.head? with
              | none =>
                match validate g2 with
                | some (.ok _) => some (g2, false)
                | _ => none
              | some sAlt =>
                let fix := sAlt ++ rest
                if i < g2.rules.length then
                  let ri := g2.rules.getD i ⟨"", 0, []⟩
                  let g3 : Rules := ⟨g2.rules.set i
                    ⟨ri.name, ri.recursionEliminationNum, ri.alternatives ++ [fix]⟩⟩
                  let g4 := putEpsilonLast g3
                  match validate g4 with
                  | some (.ok _) => some (g4, true)
                  | _ => none
                else none

/-- The `while self.eliminate_indirect_left_recursions() {}` loop of
`Rules::eliminate_left_recursions`; fuel bounds the number of Paull
rounds. -/
def eliminateLeftRecursionsGo : Nat → Rules → Option Rules
  | 0, _ => none
  | fuel + 1, g =>
    match eliminateIndirectLeftRecursions g with
    | none => none
    | some (g2, false) => some g2
    | some (g2, true) => eliminateLeftRecursionsGo fuel g2

/-- `Rules::eliminate_left_recursions` from rules.rs: validate, iterate
indirect elimination to a fixpoint, validate again (panics are `none`). -/
def eliminateLeftRecursions (fuel : Nat) (g : Rules) : Option Rules :=
  match validate g with
  | some (.ok _) =>
    match eliminateLeftRecursionsGo fuel g with
    | none => none
    | some g2 =>
      match validate g2 with
      | some (.ok _) => some g2
      | _ => none
  | _ => none

end Rules

/-- `HashSet<TokenKind>` as an insertion-ordered duplicate-free list. -/
abbrev TkSet := List TokenKind

/-- Set insertion (no duplicates). -/
def tkInsert (s : TkSet) (k : TokenKind) : TkSet :=
  if k ∈ s then s else s ++ [k]

/-- `crate::lang::util::extend`: extend the set with the elements of `t`,
reporting whether the length changed. -/
def tkExtend (s t : TkSet) : TkSet × Bool :=
  let s2 := t.foldl tkInsert s
  (s2, decide (s.length ≠ s2.length))

/-- `HashSet::remove`, keeping the remaining order. -/
def tkErase (s : TkSet) (k : TokenKind) : TkSet :=
  s.filter (fun x => decide (x ≠ k))

/-- `HashMap<String, HashSet<TokenKind>>` as an association list. -/
abbrev TkMap := List (Str × TkSet)

/-- Map lookup.  Absent keys panic in the source (`Index` / `unwrap`);
they are never queried on grammars that pass validation, and default to
the empty set here. -/
def mapGet (m : TkMap) (k : Str) : TkSet :=
  match m.find? (fun e => e.fst = k) with
  | some e => e.snd
  | none => []

/-- `HashMap::get_mut` + assignment: update an existing entry (no-op when
the key is absent, where the source panics). -/
def mapSet (m : TkMap) (k : Str) (v : TkSet) : TkMap :=
  m.map (fun e => if e.fst = k then (k, v) else e)

/-- `HashMap::insert`: overwrite or append. -/
def mapIns (m : TkMap) (k : Str) (v : TkSet) : TkMap :=
  if m.any (fun e => e.fst = k) then mapSet m k v else m ++ [(k, v)]

namespace Rules

/-- The initial FIRST map of `Rules::first_set0`: each token kind under
its upper-case name, then an empty entry *inserted* (overwriting) for
every rule name. -/
def firstInit (g : Rules) : TkMap :=
  let m := TokenKind.values.foldl
    (fun m k => mapIns m k.upperName (tkInsert (mapGet m k.upperName) k)) []
  g.rules.foldl (fun m r => mapIns m r.name []) m

/-- The inner loop of `first_set0` over `part_no in 0..alt.len()-1`:
while the current part's FIRST contains epsilon, union in the FIRST of the
next part and drop epsilon; stop early (`trailing = false`) otherwise. -/
def firstRhsLoop (first : TkMap) : List RulePart → TkSet → TkSet × Bool
  | [], rhs => (rhs, true)
  | [_], rhs => (rhs, true)
  | p :: q :: rest, rhs =>
    if TokenKind.Epsilon ∈ mapGet first p.name then
      firstRhsLoop first (q :: rest)
        (tkErase (tkExtend rhs (mapGet first q.name)).fst TokenKind.Epsilon)
    else (rhs, false)

/-- The per-alternative `rhs` of `first_set0`: FIRST of the head minus
epsilon, extended through epsilon-able parts, plus epsilon when every part
was traversed and the last part's FIRST contains epsilon.  (On an empty
alternative the source panics via `alt.first().unwrap()`; validated
grammars have none.) -/
def firstAltRhs (first : TkMap) (alt : List RulePart) : TkSet :=
  match alt with
  | [] => []
  | h :: t =>
    let rhs0 := tkErase (mapGet first h.name) TokenKind.Epsilon
    let (rhs, trailing) := firstRhsLoop first (h :: t) rhs0
    if trailing && decide (TokenKind.Epsilon ∈ mapGet first ((h :: t).getLastD h).name) then
      tkInsert rhs TokenKind.Epsilon
    else rhs

/-- One pass of the `first_set0` fixpoint.  Note the faithful quirk: the
`any_change` flag is *assigned* (not or-ed) for every alternative, so only
the last alternative processed in a pass decides whether the loop
continues. -/
def firstPass (g : Rules) (m0 : TkMap) : TkMap × Bool :=
  g.rules.foldl (fun acc r =>
    r.alternatives.foldl (fun (acc : TkMap × Bool) alt =>
      let m := acc.fst
      let rhs := firstAltRhs m alt
      let (s2, changed) := tkExtend (mapGet m r.name) rhs
      (mapSet m r.name s2, changed)) acc) (m0, false)

/-- The fixpoint loop of `first_set0` with fuel. -/
def firstIter (g : Rules) : Nat → TkMap → TkMap
  | 0, m => m
  | fuel + 1, m =>
    let (m2, changed) := firstPass g m
    if changed then firstIter g fuel m2 else m2

/-- `Rules::first_set` / `first_set0` from rules.rs.  A pass reporting a
change has strictly grown some set, so the total capacity
`(21 + rules) * 21` bounds the number of passes and the internal fuel
always suffices. -/
def firstSet (g : Rules) : TkMap :=
  firstIter g ((21 + g.rules.length) * 21 + 2) (firstInit g)

/-- The reversed-parts walk of one alternative in `follow_set0`,
threading the trailer set. -/
def followParts (first : TkMap) : List RulePart → TkSet → TkMap → Bool → TkMap × Bool
  | [], _, follow, changed => (follow, changed)
  | part :: restRev, trailer, follow, changed =>
    match part with
    | .rule n =>
      let (s2, ch) := tkExtend (mapGet follow n) trailer
      followParts first restRev (tkErase (mapGet first n) TokenKind.Epsilon)
        (mapSet follow n s2) (changed || ch)
    | .token k =>
      followParts first restRev [k] follow changed

/-- One pass of the `follow_set0` fixpoint (here `any_change` accumulates
with `||`, unlike `first_set0`). -/
def followPass (g : Rules) (first : TkMap) (f0 : TkMap) : TkMap × Bool :=
  g.rules.foldl (fun acc r =>
    r.alternatives.foldl (fun (acc : TkMap × Bool) alt =>
      followParts first alt.reverse (mapGet acc.fst r.name) acc.fst acc.snd) acc)
    (f0, false)

/-- The fixpoint loop of `follow_set0` with fuel. -/
def followIter (g : Rules) (first : TkMap) : Nat → TkMap → TkMap
  | 0, m => m
  | fuel + 1, m =>
    let (m2, changed) := followPass g first m
    if changed then followIter g first fuel m2 else m2

/-- `Rules::follow_set` / `follow_set0` from rules.rs. -/
def followSet (g : Rules) : TkMap :=
  followIter g (firstSet g) (g.rules.length * 21 + 2)
    (g.rules.foldl (fun m r => mapIns m r.name []) [])

end Rules

/-- The START map keyed by `AltRef`.  Modelled from the spec: the `AltRef`
type is declared in rule.rs but missing from the sources; per the spec it
is the pair `(rule_name, alt_index)` identifying one alternative. -/
abbrev StartMap := List ((Str × Nat) × TkSet)

/-- START-map lookup (absent keys panic in the source; default `[]`). -/
def startGet (m : StartMap) (k : Str × Nat) : TkSet :=
  match m.find? (fun e => e.fst = k) with
  | some e => e.snd
  | none => []

/-- START-map insert (overwrite or append). -/
def startIns (m : StartMap) (k : Str × Nat) (v : TkSet) : StartMap :=
  if m.any (fun e => e.fst = k) then
    m.map (fun e => if e.fst = k then (k, v) else e)
  else m ++ [(k, v)]

/-- The per-alternative body of `start_set0`: the computed START is the
FIRST of the alternative's *first part* (`alt[0]`, which panics on an
empty alternative); when that set contains epsilon, epsilon is removed
and FOLLOW of the rule unioned in. -/
def codeAltStart (first follow : TkMap) (name : Str) (alt : List RulePart) : TkSet :=
  let alt0first := mapGet first (alt.headD (.token .Epsilon)).name
  if TokenKind.Epsilon ∈ alt0first then
    (tkExtend (tkErase alt0first TokenKind.Epsilon) (mapGet follow name)).fst
  else alt0first

/-- What section 4.5 of the spec prescribes for START of one alternative
(this definition follows the spec's words, for comparison with
`codeAltStart`): FIRST of the *whole* alternative minus epsilon, unioned
with FOLLOW of the rule exactly when the entire alternative is
epsilon-able (every part can derive epsilon). -/
def specAltStart (first follow : TkMap) (name : Str) (alt : List RulePart) : TkSet :=
  let fa := tkErase (Rules.firstAltRhs first alt) TokenKind.Epsilon
  if alt.all (fun p => TokenKind.Epsilon ∈ mapGet first p.name) then
    (tkExtend fa (mapGet follow name)).fst
  else fa

namespace Rules

/-- `Rules::start_set` / `start_set0` from rules.rs. -/
def startSet (g : Rules) : StartMap :=
  let first := firstSet g
  let follow := followSet g
  g.rules.foldl (fun m r =>
    r.alternatives.enum.foldl (fun m p =>
      startIns m (r.name, p.fst) (codeAltStart first follow r.name p.snd)) m) []

end Rules

/-- The payload of the `is_backtrack_free` error message: the format
arguments of the `Err(format!(...))` in rules.rs (rule name, the two
alternative indices `i > j`, their START sets, and their intersection). -/
structure BacktrackError where
  ruleName : Str
  i : Nat
  j : Nat
  set0 : TkSet
  set1 : TkSet
  intersection : TkSet
deriving DecidableEq, Repr

/-- The inner `for j in 0..i` scan of `is_backtrack_free`: the first `j`
whose START set intersects that of alternative `i`
(`set0.intersection(set1).count() > 0`). -/
def findOffJ (starts : Nat → TkSet) (i : Nat) : List Nat → Option Nat
  | [] => none
  | j :: js =>
    if (starts i).any (fun k => k ∈ starts j) then some j
    else findOffJ starts i js

/-- The outer `for i in 1..len` scan of `is_backtrack_free`. -/
def findOffI (starts : Nat → TkSet) : List Nat → Option (Nat × Nat)
  | [] => none
  | i :: is_ =>
    match findOffJ starts i (List.range i) with
    | some j => some (i, j)
    | none => findOffI starts is_

/-- The scan `for i in 1..len { for j in 0..i { ... } }` of
`is_backtrack_free`: the first pair (in that order) whose START sets
intersect. -/
def findOffender (starts : Nat → TkSet) (len : Nat) : Option (Nat × Nat) :=
  findOffI starts (List.range' 1 (len - 1))

/-- The rule loop of `is_backtrack_free` (rules with fewer than two
alternatives are skipped). -/
def isBacktrackFreeGo (start : StartMap) : List Rule → Except BacktrackError Unit
  | [] => .ok ()
  | r :: rest =>
    if r.alternatives.length < 2 then isBacktrackFreeGo start rest
    else
      match findOffender (fun n => startGet start (r.name, n)) r.alternatives.length with
      | none => isBacktrackFreeGo start rest
      | some (i, j) =>
        let s0 := startGet start (r.name, i)
        let s1 := startGet start (r.name, j)
        .error ⟨r.name, i, j, s0, s1, s0.filter (fun k => k ∈ s1)⟩

namespace Rules

/-- `Rules::is_backtrack_free` from rules.rs. -/
def isBacktrackFree (g : Rules) : Except BacktrackError Unit :=
  isBacktrackFreeGo (startSet g) g.rules

end Rules

/-- `cmp_prefix` from `Rules::eliminate_left_common_prefix`: both
alternatives are at least `len` long and their first `len` part names
agree. -/
def cmpPref (alt0 alt1 : List RulePart) (len : Nat) : Bool :=
  if alt0.length < len || alt1.length < len then false
  else (List.range len).all (fun i =>
    (alt0.getD i (.token .Epsilon)).name = (alt1.getD i (.token .Epsilon)).name)

/-- The `j` loop of the common-prefix search: `some none` models the
`unreachable!` panic fired when two compared alternatives are equal
(by part names); `some (some j)` a prefix match; `none` no match. -/
def factorSearchJ (alts : List (List RulePart)) (alt0 : List RulePart) (len : Nat) :
    List Nat → Option (Option Nat)
  | [] => none
  | j :: js =>
    let alt1 := alts.getD j []
    if alt0 = alt1 then some none
    else if cmpPref alt0 alt1 len then some (some j)
    else factorSearchJ alts alt0 len js

/-- The `len` loop (descending from `alt0.len() - 1` to 1). -/
def factorSearchLen (alts : List (List RulePart)) (i : Nat) (alt0 : List RulePart) :
    List Nat → Option (Option Nat)
  | [] => none
  | len :: lens =>
    match factorSearchJ alts alt0 len (List.range' (i + 1) (alts.length - (i + 1))) with
    | some none => some none
    | some (some _) => some (some len)
    | none => factorSearchLen alts i alt0 lens

/-- The `i` loop over `0..alternatives.len() - 1`: the first `(len, i)`
with a common prefix of length `len` between alternative `i` and some
later alternative. -/
def factorSearchI (alts : List (List RulePart)) : List Nat → Option (Option (Nat × Nat))
  | [] => none
  | i :: is_ =>
    let alt0 := alts.getD i []
    match factorSearchLen alts i alt0 ((List.range' 1 (alt0.length - 1)).reverse) with
    | some none => some none
    | some (some len) => some (some (len, i))
    | none => factorSearchI alts is_

/-- The rule scan of `eliminate_left_common_prefix`: the first rule with at
least two alternatives for which the search finds a common prefix,
returned with its context; `some none` propagates the search's
`unreachable!` panic. -/
def elcpScan : List Rule → Option (Option (List Rule × Rule × Nat × Nat × List Rule))
  | [] => none
  | r :: rest =>
    if r.alternatives.length < 2 then
      match elcpScan rest with
      | none => none
      | some none => some none
      | some (some (pre, r2, len, ai, post)) => some (some (r :: pre, r2, len, ai, post))
    else
      match factorSearchI r.alternatives (List.range (r.alternatives.length - 1)) with
      | some none => some none
      | some (some (len, ai)) => some (some ([], r, len, ai, rest))
      | none =>
        match elcpScan rest with
        | none => none
        | some none => some none
        | some (some (pre, r2, len, ai, post)) => some (some (r :: pre, r2, len, ai, post))

/-- The inner collection loop of `eliminate_left_common_prefix`:
repeatedly find the first alternative after `altIndex` sharing the
common prefix, remove it, and append its suffix to the fresh rule's
alternatives.  Each round removes one alternative, so the alternative
count is sufficient fuel. -/
def collectMatching (commonPart : List RulePart) (len : Nat) (altIndex : Nat) :
    Nat → List (List RulePart) → List (List RulePart) →
    List (List RulePart) × List (List RulePart)
  | 0, alts, newAlts => (alts, newAlts)
  | fuel + 1, alts, newAlts =>
    match (List.range' (altIndex + 1) (alts.length - (altIndex + 1))).find?
        (fun ri => cmpPref commonPart (alts.getD ri []) len) with
    | none => (alts, newAlts)
    | some ri =>
      let suffix := (alts.getD ri []).drop len
      collectMatching commonPart len altIndex fuel (alts.eraseIdx ri) (newAlts ++ [suffix])

/-- The post-processing of the fresh rule's empty alternatives in
`eliminate_left_common_prefix`: more than one empty alternative panics
(`none`); with exactly one, it is removed when an `[EPSILON]` alternative
already exists, and otherwise an `EPSILON` part is pushed into it. -/
def fixEmptyAlts (alts : List (List RulePart)) : Option (List (List RulePart)) :=
  let emptyIndexes := (alts.enum.filter (fun p => p.snd.isEmpty)).map Prod.fst
  let hasEpsilon := alts.any (fun alt =>
    !alt.isEmpty && alt.length = 1 && (alt.headD (.token .Epsilon)).isEpsilon)
  if 1 < emptyIndexes.length then none
  else if hasEpsilon && !emptyIndexes.isEmpty then
    some (alts.eraseIdx (emptyIndexes.getLastD 0))
  else if !emptyIndexes.isEmpty then
    some (alts.set (emptyIndexes.getLastD 0)
      ((alts.getD (emptyIndexes.getLastD 0) []) ++ [.token .Epsilon]))
  else some alts

namespace Rules

/-- `Rules::eliminate_left_common_prefix` from rules.rs (the source name
ends in a word this file avoids in identifiers).  Outer `none` is fuel
exhaustion of the self-recursion (one fuel unit per fresh rule); inner
`none` is a source panic.  On a change the function recurses and then
applies `put_epsilon_last`, returning `true`. -/
def eliminateLeftCommonPfx : Nat → Rules → Option (Option (Rules × Bool))
  | 0, _ => none
  | fuel + 1, g =>
    match elcpScan g.rules with
    | some none => some none
    | none => some (some (g, false))
    | some (some (pre, r, len, altIndex, post)) =>
      let newName := findNewIndexedName g r.name
      let newNum := maxNum g + 1
      let alts0 := r.alternatives
      let workAlt := alts0.getD altIndex []
      let commonPart := workAlt.take len
      let suffix := workAlt.drop len
      let alts1 := (alts0.eraseIdx altIndex).insertIdx altIndex
        (commonPart ++ [RulePart.rule newName])
      let (alts2, newAlts) :=
        collectMatching commonPart len altIndex alts1.length alts1 [suffix]
      match fixEmptyAlts newAlts with
      | none => some none
      | some newAlts =>
        let g2 : Rules :=
          ⟨(pre ++ ⟨r.name, r.recursionEliminationNum, alts2⟩ :: post) ++
            [⟨newName, newNum, newAlts⟩]⟩
        match eliminateLeftCommonPfx fuel g2 with
        | none => none
        | some none => some none
        | some (some (g3, _)) => some (some (putEpsilonLast g3, true))

/-- `Rules::make_ready_for_recursive_decent` from rules.rs: up to
`max_loop` rounds of left-recursion elimination followed by
left-factoring; `Ok` as soon as a round's left-factoring reports no
change, otherwise the not-converging error. -/
def makeReadyForRecursiveDecent (lrFuel elcpFuel : Nat) (g : Rules) :
    Nat → Option (Except Str Rules)
  | 0 => some (.error "max loop reached but grammar was not fixed")
  | n + 1 =>
    match eliminateLeftRecursions lrFuel g with
    | none => none
    | some g2 =>
      match eliminateLeftCommonPfx elcpFuel g2 with
      | none => none
      | some none => none
      | some (some (g3, true)) => makeReadyForRecursiveDecent lrFuel elcpFuel g3 n
      | some (some (g3, false)) => some (.ok g3)

end Rules

/-- The grammar of the `recursive_grammar` fixture in rules.rs's tests,
with recursion numbers as `Rules::parse` assigns them (in order of first
appearance):
`S -> S fn_call | ID | S fn_declaration | RETURN`,
`fn_call -> ID ( ID ) ;`,
`fn_declaration -> FN ID ( S ) { fn_call }`. -/
def recursiveGrammar : Rules := ⟨[
  ⟨"S", 0, [[.rule "S", .rule "fn_call"], [.token .Id],
            [.rule "S", .rule "fn_declaration"], [.token .Return]]⟩,
  ⟨"fn_call", 1, [[.token .Id, .token .LeftParen, .token .Id,
                   .token .RightParen, .token .Semicolon]]⟩,
  ⟨"fn_declaration", 2, [[.token .Fn, .token .Id, .token .LeftParen,
                          .rule "S", .token .RightParen, .token .LeftBraces,
                          .rule "fn_call", .token .RightBraces]]⟩]⟩

/-- The expected result of direct-left-recursion elimination on
`recursiveGrammar`, as asserted by the repository's own
`test_eliminate_direct_left_recursions`:
`S -> ID S__0 | RETURN S__0` and
`S__0 -> fn_call S__0 | fn_declaration S__0 | EPSILON`. -/
def recursiveGrammarEliminated : Rules := ⟨[
  ⟨"S", 0, [[.token .Id, .rule "S__0"], [.token .Return, .rule "S__0"]]⟩,
  ⟨"fn_call", 1, [[.token .Id, .token .LeftParen, .token .Id,
                   .token .RightParen, .token .Semicolon]]⟩,
  ⟨"fn_declaration", 2, [[.token .Fn, .token .Id, .token .LeftParen,
                          .rule "S", .token .RightParen, .token .LeftBraces,
                          .rule "fn_call", .token .RightBraces]]⟩,
  ⟨"S__0", 3, [[.rule "fn_call", .rule "S__0"],
               [.rule "fn_declaration", .rule "S__0"],
               [.token .Epsilon]]⟩]⟩

/-! ## Lexer v0 (src/lang/lexer/v0.rs)

The source text is embedded as `List Char`.  The source uses the same
`pos` both as a byte index (bounds, slicing) and as a character index
(`chars().nth`), which agree on ASCII input; the embedding indexes
characters. -/

/-- `Token` from src/lang/lexer/token.rs. -/
structure Token where
  startPos : Nat
  endPos : Nat
  line : Nat
  text : Str
  tokenKind : TokenKind
deriving DecidableEq, Repr

/-- The state of `Lexer` from v0.rs, with `TextCharIter` inlined
(`current_char` is always `text.get? pos`, maintained by `set`). -/
structure LexState where
  isError : Bool
  bufferStart : Nat
  bufferEnd : Nat
  currentLine : Nat
  inEscape : Bool
  tokenKind : TokenKind
  pos : Nat
  text : List Char
deriving DecidableEq, Repr

namespace LexState

/-- `Lexer::new` from v0.rs; panics (`none`) on empty text. -/
def new (text : List Char) : Option LexState :=
  if text.isEmpty then none
  else some ⟨false, 0, 0, 1, false, .Error, 0, text⟩

/-- `TextCharIter::next`. -/
def iterNext (s : LexState) : LexState := { s with pos := s.pos + 1 }

/-- `Lexer::add_to_buffer_and_next`. -/
def addToBufferAndNext (s : LexState) : LexState :=
  { s with bufferEnd := s.bufferEnd + 1, pos := s.pos + 1 }

/-- `Lexer::start_buffer`. -/
def startBuffer (s : LexState) : LexState :=
  { s with bufferStart := s.pos, bufferEnd := s.pos }

/-- `Lexer::buffer`: the slice `text[buffer_start..buffer_end]` (the
source panics on an empty buffer; every use below has a non-empty one). -/
def buffer (s : LexState) : Str :=
  ((s.text.drop s.bufferStart).take (s.bufferEnd - s.bufferStart)).asString

/-- `Lexer::skip_whitespaces` (internal fuel: one unit per consumed
space). -/
def skipWhitespaces : Nat → LexState → LexState
  | 0, s => s
  | fuel + 1, s =>
    match s.text.get? s.pos with
    | some ' ' => skipWhitespaces fuel (iterNext s)
    | _ => s

/-- The identifier-character class of `Lexer::scan`'s loop. -/
def isIdentChar (c : Char) : Bool := c.isAlpha || c = '_' || c.isDigit

/-- Classify the finished identifier buffer, as the end of `Lexer::scan`
does: a known spelling (keyword) or `Id`. -/
def setKindFromBuffer (s : LexState) : LexState :=
  { s with tokenKind :=
      match TokenKind.fromRepr (buffer s) with
      | .ok kind => kind
      | .error _ => .Id }

/-- The loop of `Lexer::scan`. -/
def scanGo : Nat → LexState → LexState
  | 0, s => s
  | fuel + 1, s =>
    match s.text.get? s.pos with
    | some c =>
      if isIdentChar c then scanGo fuel (addToBufferAndNext s)
      else setKindFromBuffer s
    | none => setKindFromBuffer s

/-- `Lexer::scan` from v0.rs. -/
def scan (s : LexState) : LexState :=
  scanGo (s.text.length + 1) (addToBufferAndNext s)

/-- The loop of `Lexer::scan_number`: consume digits; an ASCII letter
right after the digits is an error that also latches `is_error`. -/
def scanNumberGo : Nat → LexState → Except Str Unit × LexState
  | 0, s => (.ok (), s)
  | fuel + 1, s =>
    match s.text.get? s.pos with
    | none => (.ok (), s)
    | some c =>
      if c.isDigit then scanNumberGo fuel (addToBufferAndNext s)
      else if c.isAlpha then
        (.error ("unexpected char while reading number, line=" ++
            toString s.currentLine ++ " char=" ++ c.toString),
          { s with isError := true })
      else (.ok (), s)

/-- `Lexer::scan_number` (internal fuel: one unit per digit). -/
def scanNumber (s : LexState) : Except Str Unit × LexState :=
  scanNumberGo (s.text.length + 1) s

/-- The loop of `Lexer::scan_string`. -/
def scanStringGo (start : Nat) : Nat → LexState → Except Str Unit × LexState
  | 0, s => (.ok (), s)
  | fuel + 1, s =>
    match s.text.get? s.pos with
    | some c =>
      if c = '"' then
        if s.inEscape then
          scanStringGo start fuel (addToBufferAndNext { s with inEscape := false })
        else (.ok (), iterNext s)
      else if c = '\\' then
        scanStringGo start fuel (addToBufferAndNext { s with inEscape := !s.inEscape })
      else if c = '\n' then
        scanStringGo start fuel
          (addToBufferAndNext { s with currentLine := s.currentLine + 1, inEscape := false })
      else scanStringGo start fuel (addToBufferAndNext { s with inEscape := false })
    | none =>
      (.error ("unterminated string at: " ++ toString start ++ " => " ++
          (s.text.drop s.bufferStart).asString),
        { s with isError := true })

/-- `Lexer::scan_string` from v0.rs. -/
def scanString (s : LexState) : Except Str Unit × LexState :=
  let start := s.pos
  let s2 := startBuffer (iterNext { s with inEscape := false })
  scanStringGo start (s2.text.length + 1) s2

/-- A single-character token arm of `Lexer::read_next`. -/
def simpleToken (s : LexState) (kind : TokenKind) : Except Str (Option Bool) × LexState :=
  (.ok (some true), { addToBufferAndNext s with tokenKind := kind })

/-- The character class rejected by `Lexer::read_next`'s catch-all arm. -/
def unknownChar (c : Char) : Bool :=
  !(c = ' ' || c = '\n' || c.isAlpha || c = '_' || c.isDigit || c = '"' ||
    c = ',' || c = ';' || c = '(' || c = ')' || c = '/' || c = '*' ||
    c = '+' || c = '-' || c = '=' || c = Char.ofNat 123 || c = Char.ofNat 125 ||
    c = '[' || c = ']')

/-- `Lexer::read_next` from v0.rs.  `Ok (some true)` means a token is in
the buffer, `Ok (some false)` a skipped run (whitespace or newline),
`Ok none` end of input.  The final leftover-buffer panic is unreachable:
`start_buffer` has just made the buffer empty. -/
def readNext (s0 : LexState) : Except Str (Option Bool) × LexState :=
  let s := startBuffer s0
  match s.text.get? s.pos with
  | none => (.ok none, s)
  | some c =>
    if c = ' ' then (.ok (some false), skipWhitespaces (s.text.length + 1) s)
    else if c = '\n' then
      (.ok (some false), iterNext { s with currentLine := s.currentLine + 1 })
    else if c.isAlpha || c = '_' then (.ok (some true), scan s)
    else if c.isDigit then
      match scanNumber s with
      | (.ok _, s2) => (.ok (some true), { s2 with tokenKind := .Int })
      | (.error e, s2) => (.error e, s2)
    else if c = '"' then
      match scanString s with
      | (.ok _, s2) => (.ok (some true), { s2 with tokenKind := .String })
      | (.error e, s2) => (.error e, s2)
    else if c = ',' then simpleToken s .Comma
    else if c = ';' then simpleToken s .Semicolon
    else if c = '(' then simpleToken s .LeftParen
    else if c = ')' then simpleToken s .RightParen
    else if c = '/' then simpleToken s .Slash
    else if c = '*' then simpleToken s .Star
    else if c = '+' then simpleToken s .Plus
    else if c = '-' then simpleToken s .Minus
    else if c = '=' then simpleToken s .Equal
    else if c = Char.ofNat 123 then simpleToken s .LeftBraces
    else if c = Char.ofNat 125 then simpleToken s .RightBraces
    else if c = '[' then simpleToken s .LeftBracket
    else if c = ']' then simpleToken s .RightBracket
    else
      (.error ("unexpected character at line=" ++ toString s.currentLine ++
          " pos=" ++ toString s.pos ++ ": " ++ c.toString), s)

/-- The skip loop of `Lexer::read_token`.  Every `some false` round has
advanced `pos`, so the remaining text length bounds the rounds; the
fuel-0 default `Ok none` is unreachable under the fuel chosen by
`readToken`. -/
def readTokenGo : Nat → LexState → Except Str (Option Token) × LexState
  | 0, s => (.ok none, s)
  | fuel + 1, s =>
    match readNext s with
    | (.error e, s2) => (.error e, s2)
    | (.ok (some true), s2) =>
      (.ok (some ⟨s2.bufferStart, s2.bufferEnd, s2.currentLine, buffer s2, s2.tokenKind⟩), s2)
    | (.ok (some false), s2) => readTokenGo fuel s2
    | (.ok none, s2) => (.ok none, s2)

/-- `Lexer::read_token` from v0.rs: a latched error short-circuits;
otherwise loop over `read_next` until a token, an error, or the end. -/
def readToken (s : LexState) : Except Str (Option Token) × LexState :=
  if s.isError then (.error "lexer has previously encountered an error", s)
  else readTokenGo (s.text.length + 1 - s.pos) s

end LexState

/-- `LexerIter` from v0.rs. -/
structure LexerIter where
  lexer : LexState
  iterFinished : Bool
deriving DecidableEq, Repr

namespace LexerIter

/-- `Iterator::next for LexerIter` from v0.rs: nothing after the iterator
finished; an `Ok None` from `read_token` finishes it; an error finishes
it and is yielded once. -/
def next (it : LexerIter) : Option (Except Str Token) × LexerIter :=
  if it.iterFinished then (none, it)
  else
    match LexState.readToken it.lexer with
    | (.ok v, s2) => (v.map Except.ok, { lexer := s2, iterFinished := v.isNone })
    | (.error e, s2) => (some (.error e), { lexer := s2, iterFinished := true })

/-- Collect the iterator's items (fuel: one unit per item). -/
def items : Nat → LexerIter → List (Except Str Token)
  | 0, _ => []
  | fuel + 1, it =>
    match next it with
    | (none, _) => []
    | (some r, it2) => r :: items fuel it2

end LexerIter

/-! ## Backtracking parser (src/lang/parser_impl/backtracking_parser.rs)

Parse-tree nodes (`Node` from src/lang/parser/node.rs) live behind
`Rc<RefCell<..>>` with parent pointers; they are embedded as an arena
indexed by the node's `num`: the parser assigns `num`s sequentially from
its own counter, and every node is created with the next `num`, so the
creation order equals the arena order and `num` doubles as the index. -/

/-- `Node` from node.rs (the fields used by the backtracking parser). -/
structure BNode where
  rulePart : RulePart
  altNo : Option Nat
  token : Option Token
  parent : Option Nat
  children : List Nat
  num : Nat
deriving DecidableEq, Repr

/-- `Node::new` / `Node::new_with_parent`: `alt_no` becomes `some 0` for a
rule node whose rule has alternatives (`next_alt` on construction).
Resolving the rule name fails (`none`) only for references outside the
grammar, where the source's `get_rule().borrow()` state is meaningless. -/
def newBNode (g : Rules) (rp : RulePart) (num : Nat) (parent : Option Nat) :
    Option BNode :=
  match rp with
  | .token _ => some ⟨rp, none, none, parent, [], num⟩
  | .rule n =>
    match g.findRule n with
    | none => none
    | some r =>
      some ⟨rp, if r.alternatives.isEmpty then none else some 0, none, parent, [], num⟩

/-- `MatchKind` from backtracking_parser.rs. -/
inductive MatchKind where
  | Match
  | NoMatch
  | Epsilon
deriving DecidableEq, Repr

/-- The mutable state of `backtracking_parser::parse`: the node arena, the
remaining token stream (`word` is the current lookahead; `tokens` models
the reversed `Vec` whose `pop` yields the next token, so it is kept in
stream order with the head next), the pending-node stack (head = top),
the focus, and the `next_num` counter. -/
structure BState where
  nodes : Array BNode
  tokens : List Token
  word : Option Token
  stack : List Nat
  focus : Option Nat
  nextNum : Nat
deriving DecidableEq, Repr

/-- `Node::has_next_alt` for a rule node. -/
def hasNextAlt (g : Rules) (nd : BNode) : Option Bool :=
  match nd.rulePart with
  | .token _ => none
  | .rule n =>
    match g.findRule n with
    | none => none
    | some r =>
      match nd.altNo with
      | none => some (!r.alternatives.isEmpty)
      | some a => some (a + 1 < r.alternatives.length)

/-- `is_non_terminal_with_alt` from backtracking_parser.rs: the focus is a
rule node with a selected alternative (`Node::has_alt`; by construction
`alt_no` is set exactly when the rule has alternatives). -/
def isNonTerminalWithAlt (st : BState) : Bool :=
  match st.focus with
  | none => false
  | some i =>
    match st.nodes.get? i with
    | none => false
    | some nd => nd.rulePart.isRule && nd.altNo.isSome

/-- `is_token_match` from backtracking_parser.rs; `none` models the
`word.as_ref().unwrap()` panic on a non-epsilon token node with no
lookahead. -/
def isTokenMatch (st : BState) : Option MatchKind :=
  match st.focus with
  | none => some .NoMatch
  | some i =>
    match st.nodes.get? i with
    | none => none
    | some nd =>
      match nd.rulePart with
      | .rule _ => some .NoMatch
      | .token k =>
        if k = .Epsilon then some .Epsilon
        else
          match st.word with
          | none => none
          | some w => some (if k = w.tokenKind then .Match else .NoMatch)

/-- `backtrack_push_back` from backtracking_parser.rs: recursively walk
the children in reverse, push captured tokens back onto the stream, and
filter every visited node out of the stack by its `num` (= arena index).
Fuel bounds the recursion depth (the subtree size suffices). -/
def backtrackPushBack (g : Rules) : Nat → BState → Nat → Option BState
  | 0, _, _ => none
  | fuel + 1, st, focusId =>
    match st.nodes.get? focusId with
    | none => none
    | some nd =>
      let afterKids : Option BState :=
        if !nd.children.isEmpty then
          nd.children.reverse.foldlM (fun st c => backtrackPushBack g fuel st c) st
        else if nd.token.isSome then
          match nd.token with
          | some tok =>
            some { st with
              nodes := st.nodes.set! focusId { nd with token := none },
              tokens := tok :: st.tokens }
          | none => some st
        else some st
      match afterKids with
      | none => none
      | some st2 => some { st2 with stack := st2.stack.filter (fun i => i ≠ focusId) }

/-- `backtrack` from backtracking_parser.rs: fail at an alternatives-less
rule root, otherwise undo the subtree, advance to the next alternative
when one exists, or propagate to the parent. -/
def backtrack (g : Rules) : Nat → BState → Nat → Option (Except Str (BState × Nat))
  | 0, _, _ => none
  | fuel + 1, st, focusId =>
    match st.nodes.get? focusId with
    | none => none
    | some nd =>
      if nd.rulePart.isToken then
        -- a token node: undo and go to the parent
        match backtrackPushBack g (st.nodes.size + 1) st focusId with
        | none => none
        | some st2 =>
          match nd.parent with
          | some p => backtrack g fuel st2 p
          | none => none  -- `unreachable!`
      else
        match hasNextAlt g nd with
        | none => none
        | some hna =>
          if !hna && nd.parent.isNone then
            some (.error ("no more alt on: " ++ nd.rulePart.name))
          else
            match backtrackPushBack g (st.nodes.size + 1) st focusId with
            | none => none
            | some st2 =>
              if hna then
                match st2.nodes.get? focusId with
                | none => none
                | some nd2 =>
                  -- `Node::next_alt`: None becomes 0, Some a becomes a + 1
                  let nextAlt :=
                    match nd2.altNo with
                    | none => 0
                    | some a => a + 1
                  let nd3 := { nd2 with altNo := some nextAlt }
                  some (.ok ({ st2 with nodes := st2.nodes.set! focusId nd3 }, focusId))
              else
                match nd.parent with
                | some p => backtrack g fuel st2 p
                | none => none  -- `unreachable!`

/-- Create the child nodes for an alternative's parts in order, assigning
sequential `num`s and appending to the arena. -/
def makeChildren (g : Rules) (parentId : Nat) :
    List RulePart → BState → Option (BState × List Nat)
  | [], st => some (st, [])
  | part :: rest, st =>
    match newBNode g part st.nextNum (some parentId) with
    | none => none
    | some nd =>
      match makeChildren g parentId rest
          { st with nodes := st.nodes.push nd, nextNum := st.nextNum + 1 } with
      | none => none
      | some (st2, ids) => some (st2, nd.num :: ids)

/-- The main loop of `backtracking_parser::parse`.  `Ok` carries the final
state (the tree rooted at arena index 0); the error side carries only the
`String` message, exactly as the source's
`Result<Rc<RefCell<Node>>, String>` does. -/
def bparseGo (g : Rules) : Nat → BState → Option (Except Str BState)
  | 0, _ => none
  | fuel + 1, st =>
    if isNonTerminalWithAlt st then
      match st.focus with
      | none => none
      | some fid =>
        match st.nodes.get? fid with
        | none => none
        | some nd =>
          match g.findRule nd.rulePart.name with
          | none => none
          | some r =>
            let parts := r.alternatives.getD (nd.altNo.getD 0) []
            match makeChildren g fid parts st with
            | none => none
            | some (st2, childIds) =>
              let st3 := { st2 with
                nodes := st2.nodes.set! fid { nd with children := childIds },
                stack := childIds ++ st2.stack }
              match st3.stack with
              | [] => bparseGo g fuel { st3 with focus := none, stack := [] }
              | top :: rest => bparseGo g fuel { st3 with focus := some top, stack := rest }
    else
      match isTokenMatch st with
      | none => none
      | some .Epsilon =>
        match st.stack with
        | [] => bparseGo g fuel { st with focus := none }
        | top :: rest => bparseGo g fuel { st with focus := some top, stack := rest }
      | some .Match =>
        match st.focus with
        | none => none
        | some fid =>
          match st.nodes.get? fid with
          | none => none
          | some nd =>
            let st2 := { st with nodes := st.nodes.set! fid { nd with token := st.word } }
            let st3 :=
              match st2.tokens with
              | [] => { st2 with word := none }
              | w :: ws => { st2 with word := some w, tokens := ws }
            match st3.stack with
            | [] => bparseGo g fuel { st3 with focus := none }
            | top :: rest => bparseGo g fuel { st3 with focus := some top, stack := rest }
      | some .NoMatch =>
        if st.focus.isNone && st.word.isNone then some (.ok st)
        else
          let st2 :=
            match st.word with
            | some w => { st with tokens := w :: st.tokens, word := none }
            | none => { st with word := none }
          match st2.focus with
          | none => none  -- `backtrack` begins with `focus.unwrap()`
          | some fid =>
            match backtrack g (st2.nodes.size + 1) st2 fid with
            | none => none
            | some (.error e) => some (.error e)
            | some (.ok (st3, newFocus)) =>
              match st3.tokens with
              | [] => bparseGo g fuel { st3 with focus := some newFocus, word := none }
              | w :: ws =>
                bparseGo g fuel { st3 with focus := some newFocus, word := some w, tokens := ws }

/-- `backtracking_parser::parse` from backtracking_parser.rs.  The
`rules.is_valid()?` call targets a method missing from the sources;
modelled from the spec (validation errors are returned, panics kept as
`none`) via `Rules::validate`.  The result is either the final state
(tree rooted at index 0) or a bare error message: no partial tree
accompanies the error. -/
def backtrackingParse (fuel : Nat) (g : Rules) (tokens : List Token) :
    Option (Except Str BState) :=
  match Rules.validate g with
  | none => none
  | some (.error e) => some (.error e)
  | some (.ok _) =>
    match g.rules.head? with
    | none => none  -- `rules.first().unwrap()`
    | some r0 =>
      match newBNode g (.rule r0.name) 0 none with
      | none => none
      | some root =>
        let st : BState :=
          { nodes := #[root],
            tokens := tokens.drop 1,
            word := tokens.head?,
            stack := [],
            focus := some 0,
            nextNum := 1 }
        bparseGo g fuel st

/-! ## Recursive-descent parser
(src/lang/parser_impl/recursive_descent_parser.rs)

The parser's focus/parent chain is embedded as a zipper: `focus` is the
current node, `ctx` the ancestors innermost-first; a child is attached to
its parent when the focus pops back, which reconstructs exactly the tree
the source builds by attaching at push time and mutating through
`Rc<RefCell<..>>`. -/

/-- `LexError`.  Modelled from the spec: the `LexerResult` error type
consumed by the recursive-descent parser is missing from src/ (v0.rs's
`read_token` yields plain strings); per the spec it carries
`{position, line, message}`.  The lexer embedding fills `position` and
`line` from the lexer state at the error and `error` with the v0
message. -/
structure LexError where
  position : Nat
  line : Nat
  error : Str
deriving DecidableEq, Repr

/-- `LexerResult` from v0.rs (missing from src/; see `LexError`). -/
abbrev LexerResult := Except LexError Token

/-- Collect the v0 lexer's items as `LexerResult`s (the spec-modelled
bridge from the string-error iterator). -/
def lexerResults : Nat → LexerIter → List LexerResult
  | 0, _ => []
  | fuel + 1, it =>
    match LexerIter.next it with
    | (none, _) => []
    | (some (.ok t), it2) => .ok t :: lexerResults fuel it2
    | (some (.error e), it2) =>
      .error ⟨it2.lexer.pos, it2.lexer.currentLine, e⟩ :: lexerResults fuel it2

/-- Lex a source text end to end into `LexerResult`s (`none`: empty
input panics `Lexer::new`). -/
def lexText (text : List Char) : Option (List LexerResult) :=
  (LexState.new text).map (fun s => lexerResults (text.length + 1) ⟨s, false⟩)

/-- A parse-tree node as built by the recursive-descent parser: `Node`
from node.rs, embedded in an arena (children and the parent pointer are
arena indices).  The parser attaches every node to the tree as soon as it
is created and assigns `num`s sequentially from `Node::next_num`
(maximum `num` of the tree plus one), so a node's `num` equals its arena
index and `next_num` equals the arena size. -/
structure RdNode where
  rulePart : RulePart
  altNo : Option Nat
  token : Option Token
  parent : Option Nat
  children : List Nat
  num : Nat
deriving DecidableEq, Repr

/-- `ParseError` from node.rs: the partial tree (the node arena together
with the root the parser unwound to) and a message. -/
structure ParseError where
  nodes : Array RdNode
  root : Nat
  error : Str
deriving DecidableEq, Repr

/-- The parser state: the node arena, the focus index, and the remaining
token stream. -/
structure RdState where
  nodes : Array RdNode
  focus : Nat
  tokens : List LexerResult
deriving DecidableEq, Repr

namespace RdState

/-- `Node::next_num`: see `RdNode` — every created node is attached
immediately, so the tree's maximal `num` + 1 is the arena size. -/
def nextNum (s : RdState) : Nat := s.nodes.size

/-- `RecursiveDescentParser::pop_to_parent` (the `unwrap` panics at the
root). -/
def popToParent (s : RdState) : Option RdState :=
  match s.nodes.get? s.focus with
  | none => none
  | some nd =>
    match nd.parent with
    | none => none
    | some p => some { s with focus := p }

/-- Walk the parent chain from `i` to the root node (fuel-bounded; the
chain strictly descends, so `size + 1` suffices). -/
def rootFrom (nodes : Array RdNode) : Nat → Nat → Option Nat
  | 0, _ => none
  | fuel + 1, i =>
    match nodes.get? i with
    | none => none
    | some nd =>
      match nd.parent with
      | none => some i
      | some p => rootFrom nodes fuel p

/-- `RecursiveDescentParser::pop_to_root`: the focus moves to the root. -/
def popToRootId (s : RdState) : Option Nat :=
  rootFrom s.nodes (s.nodes.size + 1) s.focus

/-- `RecursiveDescentParser::has_peek`. -/
def hasPeek (s : RdState) : Bool := !s.tokens.isEmpty

/-- The message `RecursiveDescentParser::peek` builds from a lexer
error. -/
def peekMsg (e : LexError) : Str :=
  "lexer error, position: " ++ toString e.position ++ " line: " ++
    toString e.line ++ ", error: " ++ e.error

/-- `RecursiveDescentParser::peek`: panics (`none`) when no token
remains; maps a lexer error to its message. -/
def peek (s : RdState) : Option (Except Str Token) :=
  match s.tokens.head? with
  | none => none
  | some (.ok t) => some (.ok t)
  | some (.error e) => some (.error (peekMsg e))

/-- `RecursiveDescentParser::peek_is_in`; the `.unwrap()` on a lexer
error panics (`none`). -/
def peekIsIn (s : RdState) (expecting : List TokenKind) : Option Bool :=
  if !s.hasPeek then some false
  else
    match s.tokens.head? with
    | some (.ok t) => some (expecting.contains t.tokenKind)
    | _ => none

/-- `RecursiveDescentParser::peek_is`. -/
def peekIs (s : RdState) (k : TokenKind) : Option Bool := s.peekIsIn [k]

end RdState

/-- The parser's precomputed rule table and FIRST/FOLLOW sets
(`RecursiveDescentParser::{rules, first_set, follow_set}`; the source
collects the `HashSet`s into `Vec`s, whose only uses — membership and
sorted rendering — are order-independent). -/
structure RdParser where
  rules : Rules
  firstMap : TkMap
  followMap : TkMap
deriving Repr

/-- The parse outcome: `none` is a source panic, `.error` a `ParseError`
with its partial tree, `.ok` the state after the routine. -/
abbrev RdM := Option (Except ParseError RdState)

/-- Sequence two parsing steps, propagating errors and panics (the `?`
operator of the source routines). -/
def rdSeq (m : RdM) (f : RdState → RdM) : RdM :=
  match m with
  | none => none
  | some (.error e) => some (.error e)
  | some (.ok s) => f s

/-- `Rule::has_epsilon`.  Modelled from the spec: the method is missing
from src/ (only its call site in the parser remains); per the spec's
epsilon encoding, a rule is epsilon-able when one of its alternatives is
the one-part `[EPSILON]`. -/
def Rule.hasEpsilon (r : Rule) : Bool :=
  r.alternatives.any (fun alt =>
    alt.length = 1 && (alt.headD (.token .Epsilon)).isEpsilon)

/-- `TokenKind`'s `Display` ("TokenKind[name]"). -/
def TokenKind.display (k : TokenKind) : Str := "TokenKind[" ++ k.name ++ "]"

/-- `Token`'s `Display` ("Token[Lline / start~end-kind / text]"). -/
def Token.display (t : Token) : Str :=
  "Token[L" ++ toString t.line ++ " / " ++ toString t.startPos ++ "~" ++
    toString t.endPos ++ "-" ++ TokenKind.display t.tokenKind ++ " / " ++ t.text ++ "]"

/-- Insert into a string list sorted ascending. -/
def insertSortedStr (x : Str) : List Str → List Str
  | [] => [x]
  | y :: ys => if x ≤ y then x :: y :: ys else y :: insertSortedStr x ys

/-- Sort strings ascending (the `start_tokens.sort()` in `err_rule`). -/
def sortStrs : List Str → List Str
  | [] => []
  | x :: xs => insertSortedStr x (sortStrs xs)

namespace RdParser

/-- `peek_is_in_rule_first`. -/
def peekIsInRuleFirst (p : RdParser) (s : RdState) (ruleName : Str) : Option Bool :=
  if !s.hasPeek then some false
  else
    match s.tokens.head? with
    | some (.ok t) => some ((mapGet p.firstMap ruleName).contains t.tokenKind)
    | _ => none

/-- `peek_is_in_rule_follow`. -/
def peekIsInRuleFollow (p : RdParser) (s : RdState) (ruleName : Str) : Option Bool :=
  if !s.hasPeek then some false
  else
    match s.tokens.head? with
    | some (.ok t) => some ((mapGet p.followMap ruleName).contains t.tokenKind)
    | _ => none

/-- `node_by_rule` + `push_to_rule`: create a node for the named rule
(`get_rule_by_name` is missing from src/ and modelled from the spec as a
by-name lookup panicking when absent), append it as a child of the focus,
and make it the focus. -/
def pushToRule (p : RdParser) (s : RdState) (ruleName : Str) : Option RdState :=
  match p.rules.findRule ruleName with
  | none => none
  | some r =>
    let newId := s.nextNum
    let nd : RdNode := ⟨.rule ruleName,
      if r.alternatives.isEmpty then none else some 0, none, some s.focus, [], newId⟩
    some { s with
      nodes := (s.nodes.modify s.focus
        (fun f => { f with children := f.children ++ [newId] })).push nd,
      focus := newId }

end RdParser

/-- `ok_parent`. -/
def okParent (s : RdState) : RdM :=
  match s.popToParent with
  | none => none
  | some s2 => some (.ok s2)

/-- `RecursiveDescentParser::_err`: unwind to the root and return a
`ParseError` holding the (partial) root tree. -/
def errF (s : RdState) (msg : Str) : RdM :=
  match s.popToRootId with
  | none => none
  | some r => some (.error ⟨s.nodes, r, msg⟩)

/-- `err_rule`: the `UnexpectedToken`-style message listing the rule's
FIRST tokens and, for an epsilon-able rule, its FOLLOW tokens. -/
def errRule (p : RdParser) (s : RdState) (thisRule : Str) : RdM :=
  let startTokens :=
    String.intercalate ", " (sortStrs ((mapGet p.firstMap thisRule).map TokenKind.name))
  match p.rules.findRule thisRule with
  | none => none
  | some r =>
    if r.hasEpsilon then
      let follow :=
        String.intercalate ", " (sortStrs ((mapGet p.followMap thisRule).map TokenKind.name))
      if !s.hasPeek then
        errF s ("rule: " ++ thisRule ++ " /// unexpected end of input, expecting one of tokens: " ++
          startTokens ++ " /// OR because of epsilon one of: " ++ follow)
      else
        match s.tokens.head? with
        | some (.ok t) =>
          errF s ("rule: " ++ thisRule ++ " /// unexpected token, expecting one of tokens: " ++
            startTokens ++ " /// OR because of epsilon one of: " ++ follow ++ ", got: " ++
            t.display)
        | _ => none
    else if s.hasPeek then
      match s.tokens.head? with
      | some (.ok t) =>
        errF s ("rule: " ++ thisRule ++ " /// unexpected token, expecting one of tokens: " ++
          startTokens ++ " got: " ++ t.display)
      | _ => none
    else
      errF s ("rule: " ++ thisRule ++ " /// unexpected end of input, expecting one of tokens: " ++
        startTokens)

/-- `match_tk`: match the lookahead against the expected kind, consuming
it on success (the token node is created by `node_by_token_kind` with no
parent and appended as a child of the focus); lexer errors surface as
`ParseError`s after unwinding; the trailing `peek` panics (`none`) when
the matched token was the last item. -/
def matchTk (s : RdState) (expecting : TokenKind) : RdM :=
  if !s.hasPeek then
    errF s ("unexpected end of input, expecting: " ++ TokenKind.display expecting ++
      ", got nothing")
  else
    match s.tokens.head? with
    | none => none
    | some (.error e) => errF s (RdState.peekMsg e)
    | some (.ok t) =>
      if t.tokenKind = expecting then
        let newId := s.nextNum
        let nd : RdNode := ⟨.token expecting, none, some t, none, [], newId⟩
        let s2 : RdState :=
          { s with
            nodes := (s.nodes.modify s.focus
              (fun f => { f with children := f.children ++ [newId] })).push nd,
            tokens := s.tokens.drop 1 }
        match s2.tokens.head? with
        | none => none
        | some (.ok _) => some (.ok s2)
        | some (.error e) => errF s2 (RdState.peekMsg e)
      else
        errF s ("unexpected token kind, expecting: " ++ TokenKind.display expecting ++
          ", got: " ++ t.display)

/-- The names of the hand-written routines of the recursive-descent
parser, one per grammar rule. -/
inductive RdRoutine where
  | fnCall
  | args
  | arg
  | args0
  | fnDeclaration
  | params
  | param
  | params0
  | statements
  | statement
  | statements0
  | statement0
  | ret
  | expressions
  | terms
  | expressions0
  | factor
  | terms0
deriving DecidableEq, Repr

/-- The hand-written routines of recursive_descent_parser.rs, one Rust
method per `RdRoutine` case, dispatched with fuel (each nested call uses
one unit; the source's recursion always consumes tokens between repeats,
so any fuel beyond the token count is equivalent). -/
def rdRun (p : RdParser) : Nat → RdRoutine → RdState → RdM
  | 0, _, _ => none
  | fuel + 1, routine, s0 =>
    match routine with
    | .fnCall =>
      match p.pushToRule s0 "fn_call" with
      | none => none
      | some s =>
        rdSeq (matchTk s .Id) fun s =>
        rdSeq (matchTk s .LeftParen) fun s =>
        rdSeq (rdRun p fuel .args s) fun s =>
        rdSeq (matchTk s .RightParen) fun s =>
        rdSeq (matchTk s .Semicolon) fun s =>
        okParent s
    | .args =>
      match p.pushToRule s0 "args" with
      | none => none
      | some s =>
        match p.peekIsInRuleFirst s "arg" with
        | none => none
        | some true =>
          rdSeq (rdRun p fuel .arg s) fun s =>
          rdSeq (rdRun p fuel .args0 s) fun s =>
          okParent s
        | some false =>
          match p.peekIsInRuleFollow s "args" with
          | none => none
          | some true => okParent s
          | some false => errRule p s "args"
    | .arg =>
      match p.pushToRule s0 "arg" with
      | none => none
      | some s =>
        if !s.hasPeek then errRule p s "arg"
        else
          match s.peekIs .String with
          | none => none
          | some true =>
            rdSeq (matchTk s .String) fun s => okParent s
          | some false =>
            match s.peekIs .Id with
            | none => none
            | some true =>
              rdSeq (matchTk s .Id) fun s => okParent s
            | some false =>
              match s.peekIs .Int with
              | none => none
              | some true =>
                rdSeq (matchTk s .Int) fun s => okParent s
              | some false => errRule p s "arg"
    | .args0 =>
      match p.pushToRule s0 "args__0" with
      | none => none
      | some s =>
        match s.peekIs .Comma with
        | none => none
        | some true =>
          rdSeq (matchTk s .Comma) fun s =>
          rdSeq (rdRun p fuel .args s) fun s =>
          okParent s
        | some false =>
          match p.peekIsInRuleFollow s "args__0" with
          | none => none
          | some true => okParent s
          | some false => errRule p s "args__0"
    | .fnDeclaration =>
      match p.pushToRule s0 "fn_declaration" with
      | none => none
      | some s =>
        rdSeq (matchTk s .Fn) fun s =>
        rdSeq (matchTk s .Id) fun s =>
        rdSeq (matchTk s .LeftParen) fun s =>
        rdSeq (rdRun p fuel .params s) fun s =>
        rdSeq (matchTk s .RightParen) fun s =>
        rdSeq (matchTk s .LeftBraces) fun s =>
        rdSeq (rdRun p fuel .statements s) fun s =>
        rdSeq (matchTk s .RightBraces) fun s =>
        okParent s
    | .params =>
      match p.pushToRule s0 "params" with
      | none => none
      | some s =>
        match p.peekIsInRuleFirst s "param" with
        | none => none
        | some true =>
          rdSeq (rdRun p fuel .param s) fun s =>
          rdSeq (rdRun p fuel .params0 s) fun s =>
          okParent s
        | some false =>
          match p.peekIsInRuleFollow s "params" with
          | none => none
          | some true => okParent s
          | some false => errRule p s "params"
    | .param =>
      match p.pushToRule s0 "param" with
      | none => none
      | some s =>
        rdSeq (matchTk s .Id) fun s =>
        rdSeq (matchTk s .Id) fun s =>
        okParent s
    | .params0 =>
      match p.pushToRule s0 "params__0" with
      | none => none
      | some s =>
        match s.peekIs .Comma with
        | none => none
        | some true =>
          rdSeq (matchTk s .Comma) fun s =>
          rdSeq (rdRun p fuel .params s) fun s =>
          okParent s
        | some false =>
          match p.peekIsInRuleFollow s "params__0" with
          | none => none
          | some true => okParent s
          | some false => errRule p s "params__0"
    | .statements =>
      match p.pushToRule s0 "statements" with
      | none => none
      | some s =>
        match p.peekIsInRuleFirst s "statement" with
        | none => none
        | some true =>
          rdSeq (rdRun p fuel .statement s) fun s =>
          rdSeq (rdRun p fuel .statements0 s) fun s =>
          okParent s
        | some false =>
          match p.peekIsInRuleFollow s "statements" with
          | none => none
          | some true => okParent s
          | some false => errRule p s "statements"
    | .statement =>
      match p.pushToRule s0 "statement" with
      | none => none
      | some s =>
        match s.peekIs .Id with
        | none => none
        | some true =>
          rdSeq (matchTk s .Id) fun s =>
          rdSeq (rdRun p fuel .statement0 s) fun s =>
          okParent s
        | some false =>
          match p.peekIsInRuleFirst s "ret" with
          | none => none
          | some true =>
            rdSeq (rdRun p fuel .ret s) fun s =>
            okParent s
          | some false => errRule p s "statement"
    | .statements0 =>
      match p.pushToRule s0 "statements__0" with
      | none => none
      | some s =>
        match s.peekIs .Id with
        | none => none
        | some true =>
          rdSeq (matchTk s .Id) fun s =>
          rdSeq (rdRun p fuel .statement0 s) fun s =>
          rdSeq (rdRun p fuel .statements0 s) fun s =>
          okParent s
        | some false =>
          match p.peekIsInRuleFirst s "ret" with
          | none => none
          | some true =>
            rdSeq (matchTk s .Return) fun s =>
            rdSeq (rdRun p fuel .expressions s) fun s =>
            rdSeq (matchTk s .Semicolon) fun s =>
            rdSeq (rdRun p fuel .statements0 s) fun s =>
            okParent s
          | some false =>
            match p.peekIsInRuleFollow s "statements__0" with
            | none => none
            | some true => okParent s
            | some false => errRule p s "statements__0"
    | .statement0 =>
      match p.pushToRule s0 "statement__0" with
      | none => none
      | some s =>
        if !s.hasPeek then errRule p s "statement__0"
        else
          match s.peekIs .Id with
          | none => none
          | some true =>
            rdSeq (matchTk s .Id) fun s =>
            rdSeq (matchTk s .Semicolon) fun s =>
            okParent s
          | some false =>
            match s.peekIs .Equal with
            | none => none
            | some true =>
              rdSeq (matchTk s .Equal) fun s =>
              rdSeq (rdRun p fuel .expressions s) fun s =>
              rdSeq (matchTk s .Semicolon) fun s =>
              okParent s
            | some false =>
              match s.peekIs .LeftParen with
              | none => none
              | some true =>
                rdSeq (matchTk s .LeftParen) fun s =>
                rdSeq (rdRun p fuel .args s) fun s =>
                rdSeq (matchTk s .RightParen) fun s =>
                rdSeq (matchTk s .Semicolon) fun s =>
                okParent s
              | some false => errRule p s "statement__0"
    | .ret =>
      match p.pushToRule s0 "ret" with
      | none => none
      | some s =>
        rdSeq (matchTk s .Return) fun s =>
        rdSeq (rdRun p fuel .expressions s) fun s =>
        rdSeq (matchTk s .Semicolon) fun s =>
        okParent s
    | .expressions =>
      match p.pushToRule s0 "expressions" with
      | none => none
      | some s =>
        rdSeq (rdRun p fuel .terms s) fun s =>
        rdSeq (rdRun p fuel .expressions0 s) fun s =>
        okParent s
    | .terms =>
      match p.pushToRule s0 "terms" with
      | none => none
      | some s =>
        rdSeq (rdRun p fuel .factor s) fun s =>
        rdSeq (rdRun p fuel .terms0 s) fun s =>
        okParent s
    | .expressions0 =>
      match p.pushToRule s0 "expressions__0" with
      | none => none
      | some s =>
        if !s.hasPeek then errRule p s "expressions__0"
        else
          match s.peekIs .Plus with
          | none => none
          | some true =>
            rdSeq (matchTk s .Plus) fun s =>
            rdSeq (rdRun p fuel .expressions s) fun s =>
            okParent s
          | some false =>
            match s.peekIs .Minus with
            | none => none
            | some true =>
              rdSeq (matchTk s .Minus) fun s =>
              rdSeq (rdRun p fuel .expressions s) fun s =>
              okParent s
            | some false =>
              match p.peekIsInRuleFollow s "expressions__0" with
              | none => none
              | some true => okParent s
              | some false => errRule p s "expressions__0"
    | .factor =>
      match p.pushToRule s0 "factor" with
      | none => none
      | some s =>
        if !s.hasPeek then errRule p s "factor"
        else
          match s.peekIs .LeftParen with
          | none => none
          | some true =>
            rdSeq (matchTk s .LeftParen) fun s =>
            rdSeq (rdRun p fuel .expressions s) fun s =>
            rdSeq (matchTk s .RightParen) fun s =>
            okParent s
          | some false =>
            match s.peekIs .Int with
            | none => none
            | some true =>
              rdSeq (matchTk s .Int) fun s => okParent s
            | some false =>
              match s.peekIs .Id with
              | none => none
              | some true =>
                rdSeq (matchTk s .Id) fun s => okParent s
              | some false => errRule p s "factor"
    | .terms0 =>
      match p.pushToRule s0 "terms__0" with
      | none => none
      | some s =>
        if !s.hasPeek then errRule p s "terms__0"
        else
          match s.peekIs .Star with
          | none => none
          | some true =>
            rdSeq (matchTk s .Star) fun s =>
            rdSeq (rdRun p fuel .terms s) fun s =>
            okParent s
          | some false =>
            match s.peekIs .Slash with
            | none => none
            | some true =>
              rdSeq (matchTk s .Slash) fun s =>
              rdSeq (rdRun p fuel .terms s) fun s =>
              okParent s
            | some false =>
              match p.peekIsInRuleFollow s "terms__0" with
              | none => none
              | some true => okParent s
              | some false => errRule p s "terms__0"

/-- `recursive_descent_parse` / `RecursiveDescentParser::parse_s`: build
the root node from the grammar's first rule, push an "S" node, accept an
empty stream outright, and otherwise select `fn_call` or `fn_declaration`
by FIRST-set lookahead. -/
def rdParse (fuel : Nat) (g : Rules) (tokens : List LexerResult) : RdM :=
  let p : RdParser := ⟨g, Rules.firstSet g, Rules.followSet g⟩
  match g.rules.head? with
  | none => none
  | some r0 =>
    let root : RdNode := ⟨.rule r0.name,
      if r0.alternatives.isEmpty then none else some 0, none, none, [], 0⟩
    let s0 : RdState := { nodes := #[root], focus := 0, tokens := tokens }
    match p.pushToRule s0 "S" with
    | none => none
    | some s =>
      if !s.hasPeek then
        match s.popToRootId with
        | none => none
        | some r => some (.ok { s with focus := r })
      else
        match p.peekIsInRuleFirst s "fn_call" with
        | none => none
        | some true => rdRun p fuel .fnCall s
        | some false =>
          match p.peekIsInRuleFirst s "fn_declaration" with
          | none => none
          | some true => rdRun p fuel .fnDeclaration s
          | some false => errRule p s "S"

/-- The spec's end-to-end grammar G0 (spec section 8), with the empty
alternatives encoded as the one-part `[EPSILON]` sentinel per the spec's
epsilon-encoding rule, and recursion numbers assigned in order of first
appearance as `Rules::parse` does. -/
def grammar0 : Rules := ⟨[
  ⟨"S", 0, [[.rule "fn_call"], [.rule "fn_declaration"]]⟩,
  ⟨"fn_call", 1, [[.token .Id, .token .LeftParen, .rule "args",
                   .token .RightParen, .token .Semicolon]]⟩,
  ⟨"fn_declaration", 2, [[.token .Fn, .token .Id, .token .LeftParen, .rule "params",
                          .token .RightParen, .token .LeftBraces, .rule "statements",
                          .token .RightBraces]]⟩,
  ⟨"args", 3, [[.rule "arg", .token .Comma, .rule "args"], [.rule "arg"],
               [.token .Epsilon]]⟩,
  ⟨"arg", 4, [[.token .String], [.token .Int], [.token .Id]]⟩,
  ⟨"params", 5, [[.rule "param", .token .Comma, .rule "params"], [.rule "param"],
                 [.token .Epsilon]]⟩,
  ⟨"statements", 6, [[.rule "statement", .rule "statements"], [.rule "statement"],
                     [.token .Epsilon]]⟩,
  ⟨"param", 7, [[.token .Id, .token .Id]]⟩,
  ⟨"statement", 8, [[.token .Id, .token .Id, .token .Semicolon],
                    [.token .Id, .token .Equal, .rule "expressions", .token .Semicolon],
                    [.rule "fn_call"], [.rule "ret"]]⟩,
  ⟨"expressions", 9, [[.rule "terms", .token .Plus, .rule "expressions"],
                      [.rule "terms", .token .Minus, .rule "expressions"],
                      [.rule "terms"]]⟩,
  ⟨"ret", 10, [[.token .Return, .rule "expressions", .token .Semicolon]]⟩,
  ⟨"terms", 11, [[.rule "factor", .token .Star, .rule "terms"],
                 [.rule "factor", .token .Slash, .rule "terms"],
                 [.rule "factor"]]⟩,
  ⟨"factor", 12, [[.token .LeftParen, .rule "expressions", .token .RightParen],
                  [.token .Int], [.token .Id]]⟩]⟩

/-- The result of main.rs's transformation pipeline on `grammar0`:
`eliminate_left_recursions` followed by
`make_ready_for_recursive_decent(128)` (verified below against the
pipeline).  One indirect-recursion substitution replaces `statement`'s
`fn_call` alternative by `fn_call`'s body; left-factoring then introduces
`args__0`, `params__0`, `statements__0`, `statement__0`,
`expressions__0` and `terms__0`; further substitution rounds rewrite
`statements__0`. -/
def readyGrammar0 : Rules := ⟨[
  ⟨"S", 0, [[.rule "fn_call"], [.rule "fn_declaration"]]⟩,
  ⟨"fn_call", 1, [[.token .Id, .token .LeftParen, .rule "args",
                   .token .RightParen, .token .Semicolon]]⟩,
  ⟨"fn_declaration", 2, [[.token .Fn, .token .Id, .token .LeftParen, .rule "params",
                          .token .RightParen, .token .LeftBraces, .rule "statements",
                          .token .RightBraces]]⟩,
  ⟨"args", 3, [[.rule "arg", .rule "args__0"], [.token .Epsilon]]⟩,
  ⟨"arg", 4, [[.token .String], [.token .Int], [.token .Id]]⟩,
  ⟨"params", 5, [[.rule "param", .rule "params__0"], [.token .Epsilon]]⟩,
  ⟨"statements", 6, [[.rule "statement", .rule "statements__0"], [.token .Epsilon]]⟩,
  ⟨"param", 7, [[.token .Id, .token .Id]]⟩,
  ⟨"statement", 8, [[.token .Id, .rule "statement__0"], [.rule "ret"]]⟩,
  ⟨"expressions", 9, [[.rule "terms", .rule "expressions__0"]]⟩,
  ⟨"ret", 10, [[.token .Return, .rule "expressions", .token .Semicolon]]⟩,
  ⟨"terms", 11, [[.rule "factor", .rule "terms__0"]]⟩,
  ⟨"factor", 12, [[.token .LeftParen, .rule "expressions", .token .RightParen],
                  [.token .Int], [.token .Id]]⟩,
  ⟨"args__0", 13, [[.token .Comma, .rule "args"], [.token .Epsilon]]⟩,
  ⟨"params__0", 14, [[.token .Comma, .rule "params"], [.token .Epsilon]]⟩,
  ⟨"statements__0", 15, [[.token .Id, .rule "statement__0", .rule "statements__0"],
                         [.token .Epsilon]]⟩,
  ⟨"statement__0", 16, [[.token .Id, .token .Semicolon],
                        [.token .Equal, .rule "expressions", .token .Semicolon],
                        [.token .LeftParen, .rule "args", .token .RightParen,
                         .token .Semicolon]]⟩,
  ⟨"expressions__0", 17, [[.token .Plus, .rule "expressions"],
                          [.token .Minus, .rule "expressions"], [.token .Epsilon]]⟩,
  ⟨"terms__0", 18, [[.token .Star, .rule "terms"], [.token .Slash, .rule "terms"],
                    [.token .Epsilon]]⟩]⟩

/-! ## Concrete instances used by the theorems -/

/-- A validated directly-left-recursive grammar whose recursive
alternatives are *not* a prefix of the alternative list:
`A -> ID | A FN | A RETURN`. -/
def c1G : Rules :=
  ⟨[⟨"A", 0, [[.token .Id], [.rule "A", .token .Fn],
              [.rule "A", .token .Return]]⟩]⟩

/-- `R -> A RETURN ; A -> ID | EPSILON`: the first part of `R`'s only
alternative is epsilon-able but the whole alternative is not. -/
def c2G : Rules := ⟨[
  ⟨"R", 0, [[.rule "A", .token .Return]]⟩,
  ⟨"A", 1, [[.token .Id], [.token .Epsilon]]⟩]⟩

/-- A one-rule grammar whose two alternatives' START sets share `ID`:
`r -> ID FN | ID`. -/
def c3G : Rules := ⟨[⟨"r", 0, [[.token .Id, .token .Fn], [.token .Id]]⟩]⟩

/-- Pairwise disjointness of the START sets of one rule's alternatives,
as section 4.6 of the spec demands it (every pair of distinct
alternatives, here ordered `j < i`). -/
def ruleBacktrackFree (start : StartMap) (r : Rule) : Prop :=
  ∀ i j, j < i → i < r.alternatives.length →
    ∀ k, k ∈ startGet start (r.name, i) → k ∉ startGet start (r.name, j)

/-- A rule with two alternatives sharing the factored prefix `ID FN` and
both suffixes empty: `R -> ID FN RETURN | ID FN | ID FN`. -/
def c4PanicG : Rules := ⟨[
  ⟨"R", 0, [[.token .Id, .token .Fn, .token .Return],
            [.token .Id, .token .Fn], [.token .Id, .token .Fn]]⟩]⟩

/-- One matching alternative with an empty suffix: `R -> ID FN | ID`. -/
def c4OkG : Rules := ⟨[⟨"R", 0, [[.token .Id, .token .Fn], [.token .Id]]⟩]⟩

/-- A *validated* grammar reaching the multiple-empty-slots panic:
`R -> ID FN RETURN | ID FN | idRule fnRule`, where `idRule` and `fnRule`
are rules literally named `ID` and `FN` (buildable programmatically, as
the repo's tests build rules).  `cmp_prefix` compares `RulePart::name()`
(the token's *upper* name, or the rule name), so all three alternatives
share the two-part prefix by names and two suffixes are empty; but
`Rule::validate`'s duplicate keys use the *lowercase* `TokenKind::name`,
so the keys `id-fn` and `ID-FN` differ and validation passes. -/
def c4ValidatedPanicG : Rules := ⟨[
  ⟨"R", 0, [[.token .Id, .token .Fn, .token .Return],
            [.token .Id, .token .Fn], [.rule "ID", .rule "FN"]]⟩,
  ⟨"ID", 1, [[.token .Semicolon]]⟩,
  ⟨"FN", 2, [[.token .Comma]]⟩]⟩

/-- Four alternatives with common prefix `ID`:
`R -> ID FN | ID | ID RETURN | ID STRING`. -/
def c5G : Rules := ⟨[
  ⟨"R", 0, [[.token .Id, .token .Fn], [.token .Id],
            [.token .Id, .token .Return], [.token .Id, .token .String]]⟩]⟩

/-- A two-rule grammar where `A` is directly left-recursive and `B` has
its `ε` alternative first: `A -> A FN | ID ; B -> EPSILON | ID`. -/
def c5DirectG : Rules := ⟨[
  ⟨"A", 0, [[.rule "A", .token .Fn], [.token .Id]]⟩,
  ⟨"B", 1, [[.token .Epsilon], [.token .Id]]⟩]⟩

/-- A single-token grammar for the parsers: `S -> ID`. -/
def c7G : Rules := ⟨[⟨"S", 0, [[.token .Id]]⟩]⟩

/-- A `fn` token and an `ID` token, as the lexer would produce them. -/
def fnTok : Token := ⟨0, 2, 1, "fn", .Fn⟩

/-- An identifier token. -/
def idTok : Token := ⟨0, 1, 1, "x", .Id⟩

/-- A trivially left-factored, recursion-free grammar: `r -> ID`. -/
def c9G : Rules := ⟨[⟨"r", 0, [[.token .Id]]⟩]⟩

/-- The spec's rejected program `fn f(int j) \x7b 123abc = 1; \x7d`: a run
of digits immediately followed by letters. -/
def c8Text : List Char :=
  ("fn f(int j) " ++ (Char.ofNat 123).toString ++ " 123abc = 1; " ++
    (Char.ofNat 125).toString).toList

/-- A two-character input whose single token is a lexical error. -/
def c10Text : List Char := "1a".toList

/-- The observable data of a recursive-descent failure: the root index,
the root node's rule part, and the message. -/
def rdErrorInfo : Option (Except ParseError RdState) → Option (Nat × Option RulePart × Str)
  | some (.error e) => some (e.root, (e.nodes.get? e.root).map RdNode.rulePart, e.error)
  | _ => none

/-- An error-stuck lexer state: the error latch is set, or the current
character is one the lexer rejects without consuming (the catch-all arm
of `read_next`, which reports an error but does not set the latch or
advance). -/
def stuck (s : LexState) : Prop :=
  s.isError = true ∨
    ∃ c, s.text[s.pos]? = some c ∧ LexState.unknownChar c = true

/-- The recursive-descent parser's tree invariant: the focus is a node of
the arena, every parent pointer goes to a strictly smaller index, the
focus's parent chain reaches node 0, and node 0 is the start-symbol root
(its rule part and absent parent are never touched; only its child list
grows). -/
def rdInv (rootPart : RulePart) (s : RdState) : Prop :=
  s.focus < s.nodes.size ∧
  (∀ (i : Nat) (nd : RdNode) (par : Nat), s.nodes[i]? = some nd →
    nd.parent = some par → par < i) ∧
  RdState.rootFrom s.nodes (s.nodes.size + 1) s.focus = some 0 ∧
  (∃ nd, s.nodes[0]? = some nd ∧ nd.rulePart = rootPart ∧ nd.parent = none)

/-- What every routine outcome satisfies when started from an invariant
state: a panic proves nothing, a success re-establishes the invariant,
and a `ParseError` carries the partial tree unwound to node 0, the
start-symbol root. -/
def rdResInv (rootPart : RulePart) : RdM → Prop
  | none => True
  | some (.ok s) => rdInv rootPart s
  | some (.error e) => e.root = 0 ∧
      ∃ nd, e.nodes[0]? = some nd ∧ nd.rulePart = rootPart ∧
        nd.parent = none

/-! ## Supporting lemmas -/

theorem splitFirst_none {p : α → Bool} :
    ∀ {xs : List α}, splitFirst p xs = none → ∀ x ∈ xs, p x = false := by
  intro xs
  induction xs with
  | nil => intro _ x hx; cases hx
  | cons a as ih =>
    intro h x hx
    unfold splitFirst at h
    by_cases hp : p a = true
    · simp [hp] at h
    · rcases List.mem_cons.mp hx with rfl | hx
      · simpa using hp
      · rcases hsp : splitFirst p as with _ | ⟨⟨pre2, y2, post2⟩⟩
        · exact ih hsp x hx
        · simp [hp, hsp] at h

theorem splitFirst_some {p : α → Bool} :
    ∀ {xs pre post : List α} {y : α}, splitFirst p xs = some (pre, y, post) →
      xs = pre ++ y :: post ∧ p y = true ∧ ∀ x ∈ pre, p x = false := by
  intro xs
  induction xs with
  | nil => intro pre post y h; cases h
  | cons a as ih =>
    intro pre post y h
    unfold splitFirst at h
    by_cases hp : p a = true
    · simp [hp] at h
      obtain ⟨h1, h2, h3⟩ := h
      rcases h1 with rfl; rcases h2 with rfl; rcases h3 with rfl
      exact ⟨rfl, hp, by intro x hx; cases hx⟩
    · rcases hsp : splitFirst p as with _ | ⟨⟨pre2, y2, post2⟩⟩
      · simp [hp, hsp] at h
      · simp [hp, hsp] at h
        obtain ⟨h1, h2, h3⟩ := h
        obtain ⟨e1, e2, e3⟩ := ih hsp
        rcases h1 with rfl; rcases h2 with rfl; rcases h3 with rfl
        refine ⟨by simpa using congrArg (a :: ·) e1, e2, ?_⟩
        intro x hx
        rcases List.mem_cons.mp hx with rfl | hx
        · simpa using hp
        · exact e3 x hx

theorem splitLast_none {p : α → Bool} :
    ∀ {xs : List α}, splitLast p xs = none → ∀ x ∈ xs, p x = false := by
  intro xs
  induction xs with
  | nil => intro _ x hx; cases hx
  | cons a as ih =>
    intro h x hx
    unfold splitLast at h
    rcases hsp : splitLast p as with _ | ⟨⟨pre2, y2, post2⟩⟩
    · rw [hsp] at h
      by_cases hp : p a = true
      · simp [hp] at h
      · rcases List.mem_cons.mp hx with rfl | hx
        · simpa using hp
        · exact ih hsp x hx
    · rw [hsp] at h; cases h

theorem splitLast_some {p : α → Bool} :
    ∀ {xs pre post : List α} {y : α}, splitLast p xs = some (pre, y, post) →
      xs = pre ++ y :: post ∧ p y = true ∧ ∀ x ∈ post, p x = false := by
  intro xs
  induction xs with
  | nil => intro pre post y h; cases h
  | cons a as ih =>
    intro pre post y h
    unfold splitLast at h
    rcases hsp : splitLast p as with _ | ⟨⟨pre2, y2, post2⟩⟩
    · rw [hsp] at h
      by_cases hp : p a = true
      · simp [hp] at h
        obtain ⟨h1, h2, h3⟩ := h
        rcases h1 with rfl; rcases h2 with rfl; rcases h3 with rfl
        exact ⟨rfl, hp, fun x hx => splitLast_none hsp x hx⟩
      · simp [hp] at h
    · rw [hsp] at h
      simp at h
      obtain ⟨h1, h2, h3⟩ := h
      obtain ⟨e1, e2, e3⟩ := ih hsp
      rcases h1 with rfl; rcases h2 with rfl; rcases h3 with rfl
      exact ⟨by simpa using congrArg (a :: ·) e1, e2, e3⟩

theorem partitionIPGo_perm [DecidableEq α] (p : α → Bool) :
    ∀ (fuel : Nat) (xs : List α), (partitionIPGo p fuel xs).Perm xs := by
  intro fuel
  induction fuel with
  | zero => intro xs; simp [partitionIPGo]
  | succ n ih =>
    intro xs
    unfold partitionIPGo
    rcases hf : splitFirst (fun x => !p x) xs with _ | ⟨⟨ts, f, rest⟩⟩
    · simp only [hf]
      exact List.Perm.refl xs
    · simp only [hf]
      rcases hl : splitLast p rest with _ | ⟨⟨mid, t, fs⟩⟩
      · simp only [hl]
        exact List.Perm.refl xs
      · simp only [hl]
        obtain ⟨e1, _, _⟩ := splitFirst_some hf
        obtain ⟨e4, _, _⟩ := splitLast_some hl
        subst e4
        subst e1
        refine List.Perm.append_left ts ?_
        rw [List.perm_iff_count]
        intro a
        have hcm : (partitionIPGo p n mid).count a = mid.count a :=
          (ih mid).count_eq a
        simp [List.count_cons, List.count_append, hcm]
        omega

theorem countP_all_true {p : α → Bool} {xs : List α}
    (h : ∀ x ∈ xs, p x = true) : xs.countP p = xs.length := by
  induction xs with
  | nil => rfl
  | cons a as ih =>
    rw [List.countP_cons, h a (by simp), ih (fun x hx => h x (by simp [hx]))]
    simp [Nat.add_comm]

theorem countP_all_false {p : α → Bool} {xs : List α}
    (h : ∀ x ∈ xs, p x = false) : xs.countP p = 0 := by
  induction xs with
  | nil => rfl
  | cons a as ih =>
    rw [List.countP_cons, h a (by simp), ih (fun x hx => h x (by simp [hx]))]
    simp

theorem filter_all_true {p : α → Bool} {xs : List α}
    (h : ∀ x ∈ xs, p x = true) : xs.filter p = xs :=
  List.filter_eq_self.mpr h

theorem filter_all_false {p : α → Bool} {xs : List α}
    (h : ∀ x ∈ xs, p x = false) : xs.filter p = [] := by
  induction xs with
  | nil => rfl
  | cons a as ih =>
    rw [List.filter_cons, h a (by simp)]
    simpa using ih (fun x hx => h x (by simp [hx]))

/-- `partition_in_place` splits the list at the partition point: the first
`countP p` slots hold (a permutation of) the elements satisfying `p` and the
rest hold the others. -/
theorem partitionIPGo_take_drop [DecidableEq α] (p : α → Bool) :
    ∀ (fuel : Nat) (xs : List α), xs.length ≤ fuel →
      ((partitionIPGo p fuel xs).take (xs.countP p)).Perm (xs.filter p) ∧
      ((partitionIPGo p fuel xs).drop (xs.countP p)).Perm
        (xs.filter (fun x => !p x)) := by
  intro fuel
  induction fuel with
  | zero =>
    intro xs hlen
    have : xs = [] := List.length_eq_zero.mp (Nat.le_zero.mp hlen)
    subst this
    simp [partitionIPGo]
  | succ n ih =>
    intro xs hlen
    unfold partitionIPGo
    rcases hf : splitFirst (fun x => !p x) xs with _ | ⟨⟨ts, f, rest⟩⟩
    · simp only [hf]
      have hall : ∀ x ∈ xs, p x = true := by
        intro x hx
        have := splitFirst_none hf x hx
        simpa using this
      rw [countP_all_true hall, filter_all_true hall, filter_all_false
        (by intro x hx; simp [hall x hx])]
      simp
    · simp only [hf]
      obtain ⟨e1, hft, hts⟩ := splitFirst_some hf
      have hts' : ∀ x ∈ ts, p x = true := by
        intro x hx; simpa using hts x hx
      have hfF : p f = false := by simpa using hft
      rcases hl : splitLast p rest with _ | ⟨⟨mid, t, fs⟩⟩
      · simp only [hl]
        have hrest : ∀ x ∈ rest, p x = false := splitLast_none hl
        subst e1
        have hcount : (ts ++ f :: rest).countP p = ts.length := by
          rw [List.countP_append, countP_all_true hts', List.countP_cons, hfF,
            countP_all_false hrest]
          simp
        have hfilT : (ts ++ f :: rest).filter p = ts := by
          rw [List.filter_append, filter_all_true hts', List.filter_cons, hfF]
          simp [filter_all_false hrest]
        have hfilF : (ts ++ f :: rest).filter (fun x => !p x) = f :: rest := by
          have h1 : ts.filter (fun x => !p x) = [] :=
            filter_all_false (by intro x hx; simp [hts' x hx])
          have h2 : rest.filter (fun x => !p x) = rest :=
            filter_all_true (by intro x hx; simp [hrest x hx])
          rw [List.filter_append, h1, List.filter_cons, List.nil_append]
          simp [hfF, h2]
        rw [hcount, hfilT, hfilF]
        constructor
        · rw [List.take_left]
        · rw [List.drop_left]
      · simp only [hl]
        obtain ⟨e4, htT, hfs⟩ := splitLast_some hl
        subst e4
        subst e1
        have hmidlen : mid.length ≤ n := by
          have := hlen
          simp [List.length_append, List.length_cons] at this
          omega
        obtain ⟨ihT, ihD⟩ := ih mid hmidlen
        have hgolen : (partitionIPGo p n mid).length = mid.length :=
          (partitionIPGo_perm p n mid).length_eq
        have hcmle : mid.countP p ≤ mid.length := List.countP_le_length p
        have hcount : (ts ++ f :: (mid ++ t :: fs)).countP p =
            ts.length + 1 + mid.countP p := by
          rw [List.countP_append, countP_all_true hts', List.countP_cons, hfF,
            List.countP_append, List.countP_cons, htT, countP_all_false hfs]
          simp
          omega
        have hfilT : (ts ++ f :: (mid ++ t :: fs)).filter p =
            ts ++ (mid.filter p ++ [t]) := by
          simp [List.filter_append, List.filter_cons, hfF, htT,
            filter_all_true hts', filter_all_false hfs]
        have hfilF : (ts ++ f :: (mid ++ t :: fs)).filter (fun x => !p x) =
            f :: (mid.filter (fun x => !p x) ++ fs) := by
          have h1 : ts.filter (fun x => !p x) = [] :=
            filter_all_false (by intro x hx; simp [hts' x hx])
          have h3 : fs.filter (fun x => !p x) = fs :=
            filter_all_true (by intro x hx; simp [hfs x hx])
          rw [List.filter_append, h1, List.filter_cons, List.nil_append,
            List.filter_append, List.filter_cons, h3]
          simp [hfF, htT]
        rw [hcount, hfilT, hfilF]
        have htake : (ts ++ t :: (partitionIPGo p n mid ++ f :: fs)).take
            (ts.length + 1 + mid.countP p) =
            ts ++ t :: (partitionIPGo p n mid).take (mid.countP p) := by
          rw [List.take_append_eq_append_take]
          congr 1
          · rw [List.take_of_length_le (by omega)]
          · have : ts.length + 1 + mid.countP p - ts.length =
                mid.countP p + 1 := by omega
            rw [this, List.take_succ_cons]
            congr 1
            rw [List.take_append_eq_append_take,
              Nat.sub_eq_zero_of_le (by omega)]
            simp
        have hdrop : (ts ++ t :: (partitionIPGo p n mid ++ f :: fs)).drop
            (ts.length + 1 + mid.countP p) =
            (partitionIPGo p n mid).drop (mid.countP p) ++ f :: fs := by
          rw [List.drop_append_eq_append_drop,
            List.drop_of_length_le (by omega)]
          have : ts.length + 1 + mid.countP p - ts.length =
              mid.countP p + 1 := by omega
          rw [this, List.nil_append, List.drop_succ_cons,
            List.drop_append_eq_append_drop,
            Nat.sub_eq_zero_of_le (by omega), List.drop_zero]
        rw [htake, hdrop]
        constructor
        · exact List.Perm.append_left ts
            (List.Perm.trans (List.Perm.cons t ihT)
              (List.perm_append_singleton t (mid.filter p)).symm)
        · exact List.Perm.trans List.perm_middle
            (List.Perm.cons f (List.Perm.append_right fs ihD))

theorem splitFirst_eq_none_of {p : α → Bool} :
    ∀ {xs : List α}, (∀ x ∈ xs, p x = false) → splitFirst p xs = none := by
  intro xs
  induction xs with
  | nil => intro _; rfl
  | cons a as ih =>
    intro h
    unfold splitFirst
    rw [h a (by simp), ih (fun x hx => h x (by simp [hx]))]
    simp

theorem splitLast_eq_none_of {p : α → Bool} :
    ∀ {xs : List α}, (∀ x ∈ xs, p x = false) → splitLast p xs = none := by
  intro xs
  induction xs with
  | nil => intro _; rfl
  | cons a as ih =>
    intro h
    unfold splitLast
    rw [ih (fun x hx => h x (by simp [hx])), h a (by simp)]
    simp

theorem splitFirst_eq_of_grouped {p : α → Bool} {f : α} (hf : p f = true) :
    ∀ {ts : List α} (rest : List α), (∀ x ∈ ts, p x = false) →
      splitFirst p (ts ++ f :: rest) = some (ts, f, rest) := by
  intro ts
  induction ts with
  | nil =>
    intro rest _
    unfold splitFirst
    simp [hf]
  | cons a as ih =>
    intro rest h
    have ha : p a = false := h a (by simp)
    rw [List.cons_append]
    unfold splitFirst
    rw [ha, ih rest (fun x hx => h x (by simp [hx]))]
    simp

/-- On an already-partitioned list (elements satisfying `p` first), the
`partition_in_place` loop is the identity. -/
theorem partitionIPGo_grouped {p : α → Bool} :
    ∀ (fuel : Nat) {recs rems : List α}, (∀ x ∈ recs, p x = true) →
      (∀ x ∈ rems, p x = false) →
      partitionIPGo p fuel (recs ++ rems) = recs ++ rems := by
  intro fuel recs rems hrecs hrems
  cases fuel with
  | zero => rfl
  | succ n =>
    unfold partitionIPGo
    rcases rems with _ | ⟨b, bs⟩
    · rw [splitFirst_eq_none_of (p := fun x => !p x)
        (by intro x hx; simp at hx; simp [hrecs x hx])]
    · rw [splitFirst_eq_of_grouped (by simp [hrems b (by simp)])
        bs (by intro x hx; simp [hrecs x hx])]
      have h2 : splitLast p bs = none :=
        splitLast_eq_none_of (fun x hx => hrems x (by simp [hx]))
      simp [h2]

/-- One round of direct-left-recursion elimination, on the first rule
with a directly recursive alternative: the rewritten rule keeps its name
and recursion number and holds the non-recursive alternatives each
extended by the fresh reference, the fresh rule holds the tails of the
recursive alternatives each extended by the fresh reference with epsilon
last and carries the supplied recursion number — but both groups only as
*permutations* of the originals, because `partition_in_place` reorders. -/
theorem eliminateDirectStep_structure (num : Nat) (g : Rules)
    (pre post : List Rule) (r : Rule)
    (h : splitFirst hasRecursiveRule g.rules = some (pre, r, post)) :
    ∃ recAlts remAlts : List (List RulePart),
      Rules.eliminateDirectStep num g = some
        ⟨pre ++ ⟨r.name, r.recursionEliminationNum, remAlts⟩ :: post ++
          [⟨Rules.findNewIndexedName g r.name, num,
            recAlts ++ [[.token .Epsilon]]⟩]⟩ ∧
      recAlts.Perm ((r.alternatives.filter (recAltPred r.name)).map
        (fun alt => alt.drop 1 ++
          [.rule (Rules.findNewIndexedName g r.name)])) ∧
      remAlts.Perm ((r.alternatives.filter
          (fun a => !recAltPred r.name a)).map
        (fun alt => alt ++ [.rule (Rules.findNewIndexedName g r.name)])) := by
  obtain ⟨hT, hD⟩ := partitionIPGo_take_drop (recAltPred r.name)
    r.alternatives.length r.alternatives (Nat.le_refl _)
  refine ⟨_, _, ?_, hT.map _, hD.map _⟩
  simp only [Rules.eliminateDirectStep, h, partitionInPlace]

/-- When the recursive alternatives already form a prefix of the rule's
alternative list (as in the spec's canonical form `A → A α₁ | … | A αₘ |
β₁ | … | βₙ` read literally), the round preserves both groups' order
exactly. -/
theorem eliminateDirectStep_grouped (num : Nat) (g : Rules)
    (pre post : List Rule) (r : Rule)
    (recs rems : List (List RulePart))
    (h : splitFirst hasRecursiveRule g.rules = some (pre, r, post))
    (halts : r.alternatives = recs ++ rems)
    (hrecs : ∀ a ∈ recs, recAltPred r.name a = true)
    (hrems : ∀ a ∈ rems, recAltPred r.name a = false) :
    Rules.eliminateDirectStep num g = some
      ⟨pre ++ ⟨r.name, r.recursionEliminationNum,
          rems.map (fun alt => alt ++
            [.rule (Rules.findNewIndexedName g r.name)])⟩ :: post ++
        [⟨Rules.findNewIndexedName g r.name, num,
          recs.map (fun alt => alt.drop 1 ++
            [.rule (Rules.findNewIndexedName g r.name)]) ++
            [[.token .Epsilon]]⟩]⟩ := by
  have hpart : partitionIPGo (recAltPred r.name) r.alternatives.length
      r.alternatives = recs ++ rems := by
    rw [halts]
    exact partitionIPGo_grouped _ hrecs hrems
  have hcnt : r.alternatives.countP (recAltPred r.name) = recs.length := by
    rw [halts, List.countP_append, countP_all_true hrecs,
      countP_all_false hrems]
    simp
  simp only [Rules.eliminateDirectStep, h, partitionInPlace, hpart, hcnt,
    List.take_left, List.drop_left]

/-- `find_new_indexed_name` returns an unused name whenever any candidate
`name__i` with `i ≤ rules.len()` is unused (always true in the source: the
candidates are pairwise distinct and fewer names are taken). -/
theorem findNewIndexedName_fresh (g : Rules) (name : Str) (i : Nat)
    (hle : i ≤ g.rules.length)
    (hfree : g.hasRule (name ++ "__" ++ toString i) = false) :
    g.hasRule (Rules.findNewIndexedName g name) = false := by
  unfold Rules.findNewIndexedName
  rcases hfind : (List.range (g.rules.length + 1)).find?
      (fun j => !g.hasRule (name ++ "__" ++ toString j)) with _ | j
  · exfalso
    have := List.find?_eq_none.mp hfind i (by
      simp [List.mem_range]; omega)
    simp [hfree] at this
  · have := List.find?_some hfind
    simpa using this

/-! ## Claim theorems -/

/-- Claim C1 (corrected).  Direct-left-recursion elimination rewrites the
first directly recursive rule `A` to the `βᵢ A__k` and adds the fresh
rule `A__k → … αᵢ A__k … | ε` with `ε` last and a fresh recursion
number, but each group is only a *permutation* of the original `αᵢ`/`βᵢ`
order (the in-place partition reorders; the order is preserved exactly
when the recursive alternatives form a prefix of the alternative list).
The fresh name `A__k` is unused whenever some candidate index within
`rules.len()` is unused (which pigeonholing guarantees in the source).
On `S -> S fn_call | ID | S fn_declaration | RETURN` elimination produces
exactly the claimed grammar, and running it again changes nothing. -/
theorem claim_C1 :
    (∀ (num : Nat) (g : Rules) (pre post : List Rule) (r : Rule),
      splitFirst hasRecursiveRule g.rules = some (pre, r, post) →
      ∃ recAlts remAlts : List (List RulePart),
        Rules.eliminateDirectStep num g = some
          ⟨pre ++ ⟨r.name, r.recursionEliminationNum, remAlts⟩ :: post ++
            [⟨Rules.findNewIndexedName g r.name, num,
              recAlts ++ [[.token .Epsilon]]⟩]⟩ ∧
        recAlts.Perm ((r.alternatives.filter (recAltPred r.name)).map
          (fun alt => alt.drop 1 ++
            [.rule (Rules.findNewIndexedName g r.name)])) ∧
        remAlts.Perm ((r.alternatives.filter
            (fun a => !recAltPred r.name a)).map
          (fun alt => alt ++ [.rule (Rules.findNewIndexedName g r.name)]))) ∧
    (∀ (num : Nat) (g : Rules) (pre post : List Rule) (r : Rule)
      (recs rems : List (List RulePart)),
      splitFirst hasRecursiveRule g.rules = some (pre, r, post) →
      r.alternatives = recs ++ rems →
      (∀ a ∈ recs, recAltPred r.name a = true) →
      (∀ a ∈ rems, recAltPred r.name a = false) →
      Rules.eliminateDirectStep num g = some
        ⟨pre ++ ⟨r.name, r.recursionEliminationNum,
            rems.map (fun alt => alt ++
              [.rule (Rules.findNewIndexedName g r.name)])⟩ :: post ++
          [⟨Rules.findNewIndexedName g r.name, num,
            recs.map (fun alt => alt.drop 1 ++
              [.rule (Rules.findNewIndexedName g r.name)]) ++
              [[.token .Epsilon]]⟩]⟩) ∧
    (∀ (g : Rules) (name : Str) (i : Nat), i ≤ g.rules.length →
      g.hasRule (name ++ "__" ++ toString i) = false →
      g.hasRule (Rules.findNewIndexedName g name) = false) ∧
    Rules.eliminateDirectLeftRecursions recursiveGrammar =
      some recursiveGrammarEliminated ∧
    Rules.eliminateDirectLeftRecursions0 recursiveGrammarEliminated =
      some (recursiveGrammarEliminated, false) :=
  ⟨eliminateDirectStep_structure, eliminateDirectStep_grouped,
    findNewIndexedName_fresh, by decide, by decide⟩

/-- Claim C1 counterexample.  The validated grammar
`A -> ID | A FN | A RETURN` (the schematic form with `m = 2`, `α₁ = FN`,
`α₂ = RETURN`, `β₁ = ID`) is rewritten to `A -> ID A__0` with
`A__0 -> RETURN A__0 | FN A__0 | ε`: the `αᵢ` group comes out *reversed*,
not in the claimed order `α₁ A__k | α₂ A__k`. -/
theorem claim_C1_counterexample :
    Rules.validate c1G = some (.ok ()) ∧
    Rules.eliminateDirectLeftRecursions c1G = some ⟨[
      ⟨"A", 0, [[.token .Id, .rule "A__0"]]⟩,
      ⟨"A__0", 1, [[.token .Return, .rule "A__0"],
                   [.token .Fn, .rule "A__0"], [.token .Epsilon]]⟩]⟩ ∧
    Rules.eliminateDirectLeftRecursions c1G ≠ some ⟨[
      ⟨"A", 0, [[.token .Id, .rule "A__0"]]⟩,
      ⟨"A__0", 1, [[.token .Fn, .rule "A__0"],
                   [.token .Return, .rule "A__0"], [.token .Epsilon]]⟩]⟩ := by
  decide

/-- With exactly one empty entry in the fresh rule's alternatives, the
empty-suffix post-processing succeeds: the empty alternative becomes
`[EPSILON]`, or is removed when an `[EPSILON]` alternative already
exists. -/
theorem fixEmptyAlts_single (alts : List (List RulePart)) (k : Nat)
    (h : (alts.enum.filter (fun p => p.snd.isEmpty)).map Prod.fst = [k]) :
    fixEmptyAlts alts = some (if alts.any (fun alt =>
        !alt.isEmpty && alt.length = 1 &&
          (alt.headD (.token .Epsilon)).isEpsilon) then
      alts.eraseIdx k
    else alts.set k [.token .Epsilon]) := by
  have hmem : (k, ([] : List RulePart)) ∈ alts.enum := by
    have h1 : ∃ p ∈ alts.enum.filter (fun p => p.snd.isEmpty),
        Prod.fst p = k := by
      have : k ∈ (alts.enum.filter (fun p => p.snd.isEmpty)).map Prod.fst := by
        rw [h]; simp
      simpa using this
    obtain ⟨p, hp, hpk⟩ := h1
    have h2 := List.mem_filter.mp hp
    have h3 : p.snd = [] := by
      have := h2.2
      simpa [List.isEmpty_iff] using this
    have : p = (k, ([] : List RulePart)) := by
      cases p; simp_all
    rw [this] at h2
    exact h2.1
  have hk : alts[k]? = some [] := List.mem_enum_iff_getElem?.mp hmem
  cases hEps : alts.any (fun alt =>
      !alt.isEmpty && alt.length = 1 &&
        (alt.headD (.token .Epsilon)).isEpsilon) with
  | true =>
    unfold fixEmptyAlts
    rw [h, hEps]
    simp
  | false =>
    unfold fixEmptyAlts
    rw [h, hEps]
    simp [List.getD_eq_getElem?_getD, hk]

/-- With two or more empty entries the post-processing refuses
(`panic!` in the source): the empty suffixes do not collapse. -/
theorem fixEmptyAlts_multi (alts : List (List RulePart))
    (h : 1 < ((alts.enum.filter
      (fun p => p.snd.isEmpty)).map Prod.fst).length) :
    fixEmptyAlts alts = none := by
  unfold fixEmptyAlts
  rw [if_pos (by simpa using h)]

/-- Claim C4 (corrected).  A single matching alternative with an empty
suffix does contribute an `ε` alternative to the fresh rule (it is pushed
into the empty slot, or the slot is dropped when an `[EPSILON]`
alternative already exists); on `R -> ID FN | ID` left-factoring yields
`R -> ID R__0` and `R__0 -> FN | ε`.  But two or more empty suffixes do
*not* collapse: the operation panics. -/
theorem claim_C4 :
    (∀ (alts : List (List RulePart)) (k : Nat),
      (alts.enum.filter (fun p => p.snd.isEmpty)).map Prod.fst = [k] →
      fixEmptyAlts alts = some (if alts.any (fun alt =>
          !alt.isEmpty && alt.length = 1 &&
            (alt.headD (.token .Epsilon)).isEpsilon) then
        alts.eraseIdx k
      else alts.set k [.token .Epsilon])) ∧
    (∀ alts : List (List RulePart),
      1 < ((alts.enum.filter
        (fun p => p.snd.isEmpty)).map Prod.fst).length →
      fixEmptyAlts alts = none) ∧
    Rules.eliminateLeftCommonPfx 10 c4OkG = some (some (⟨[
      ⟨"R", 0, [[.token .Id, .rule "R__0"]]⟩,
      ⟨"R__0", 1, [[.token .Fn], [.token .Epsilon]]⟩]⟩, true)) :=
  ⟨fixEmptyAlts_single, fixEmptyAlts_multi, by decide⟩

/-- Claim C4 counterexample.  On `R -> ID FN RETURN | ID FN | ID FN` the
two alternatives equal to the factored prefix `ID FN` leave two empty
suffixes, and the operation panics (`some none`) instead of collapsing
them into a single `ε` alternative.  Moreover the panic is reachable on a
*validated* grammar: `cmp_prefix` matches parts by `RulePart::name()`
(token upper names) while validation's duplicate-alternative key uses the
lowercase `TokenKind::name`, so `c4ValidatedPanicG` — whose third
alternative references rules literally named `ID` and `FN` — passes
`Rules::validate` yet panics under left-factoring. -/
theorem claim_C4_counterexample :
    fixEmptyAlts [[.token .Return], [], []] = none ∧
    Rules.eliminateLeftCommonPfx 10 c4PanicG = some none ∧
    Rules.validate c4ValidatedPanicG = some (.ok ()) ∧
    Rules.eliminateLeftCommonPfx 10 c4ValidatedPanicG = some none := by
  decide

theorem count_set_aux [DecidableEq α] (l : List α) (n : Nat) (b a : α)
    (h : n < l.length) :
    (l.set n b).count a + (if l[n] = a then 1 else 0) =
      l.count a + (if b = a then 1 else 0) := by
  rw [List.set_eq_take_cons_drop b h]
  conv_rhs => rw [← List.take_append_drop n l, List.drop_eq_getElem_cons h]
  simp only [List.count_append, List.count_cons, beq_iff_eq]
  split_ifs <;> omega

/-- Swapping the entries at two distinct positions permutes the list. -/
theorem set_set_swap_perm [DecidableEq α] (l : List α) (i j : Nat)
    (d : α) (hi : i < l.length) (hj : j < l.length) (hne : i ≠ j) :
    ((l.set i (l.getD j d)).set j (l.getD i d)).Perm l := by
  rw [List.perm_iff_count]
  intro a
  have h1 := count_set_aux l i (l.getD j d) a hi
  have h2 := count_set_aux (l.set i (l.getD j d)) j (l.getD i d) a
    (by simpa using hj)
  have hjs : j < (l.set i (l.getD j d)).length := by simpa using hj
  have hgj : (l.set i (l.getD j d))[j] = l[j] :=
    List.getElem_set_of_ne hne _ hjs
  rw [hgj] at h2
  simp only [List.getD_eq_getElem l d hi, List.getD_eq_getElem l d hj]
    at h1 h2 ⊢
  split_ifs at h1 h2 <;> omega

/-- `put_epsilon_last` never changes a rule's name, recursion number or
alternative *multiset*: it only swaps two alternatives. -/
theorem putEpsilonLastRule_perm (r : Rule) :
    (Rules.putEpsilonLastRule r).name = r.name ∧
    (Rules.putEpsilonLastRule r).recursionEliminationNum =
      r.recursionEliminationNum ∧
    (Rules.putEpsilonLastRule r).alternatives.Perm r.alternatives := by
  by_cases h1 : 1 < r.alternatives.length
  · rcases hf : r.alternatives.findIdx? Rules.isEpsAlt with _ | i
    · simp [Rules.putEpsilonLastRule, h1, hf]
    · obtain ⟨hi, _⟩ := List.findIdx?_eq_some_iff_findIdx_eq.mp hf
      by_cases hne : i = r.alternatives.length - 1
      · simp [Rules.putEpsilonLastRule, h1, hf, hne]
      · refine ⟨by simp [Rules.putEpsilonLastRule, h1, hf, hne],
          by simp [Rules.putEpsilonLastRule, h1, hf, hne], ?_⟩
        have hres : (Rules.putEpsilonLastRule r).alternatives =
            (r.alternatives.set i (r.alternatives.getD
              (r.alternatives.length - 1) [])).set
              (r.alternatives.length - 1) (r.alternatives.getD i []) := by
          simp [Rules.putEpsilonLastRule, h1, hf, hne]
        rw [hres]
        exact set_set_swap_perm r.alternatives i
          (r.alternatives.length - 1) [] hi (by omega) hne
  · simp [Rules.putEpsilonLastRule, h1]

/-- When a rule with more than one alternative has an `[EPSILON]`
alternative, `put_epsilon_last` leaves one in the last position. -/
theorem putEpsilonLastRule_eps_last (r : Rule) (i : Nat)
    (hf : r.alternatives.findIdx? Rules.isEpsAlt = some i)
    (h1 : 1 < r.alternatives.length) :
    Rules.isEpsAlt ((Rules.putEpsilonLastRule r).alternatives.getLastD []) = true := by
  obtain ⟨hi, hidx⟩ := List.findIdx?_eq_some_iff_findIdx_eq.mp hf
  have hp : Rules.isEpsAlt r.alternatives[i] = true := by
    subst hidx
    exact List.findIdx_getElem
  by_cases hne : i = r.alternatives.length - 1
  · have hres : Rules.putEpsilonLastRule r = r := by
      simp [Rules.putEpsilonLastRule, h1, hf, hne]
    rw [hres, List.getLastD_eq_getLast?, List.getLast?_eq_getElem?]
    have : r.alternatives[r.alternatives.length - 1]? =
        some r.alternatives[i] := by
      rw [← hne]
      exact List.getElem?_eq_getElem hi
    rw [this]
    exact hp
  · have hres : (Rules.putEpsilonLastRule r).alternatives =
        (r.alternatives.set i (r.alternatives.getD
          (r.alternatives.length - 1) [])).set
          (r.alternatives.length - 1) (r.alternatives.getD i []) := by
      simp [Rules.putEpsilonLastRule, h1, hf, hne]
    rw [hres, List.getLastD_eq_getLast?, List.getLast?_eq_getElem?]
    have hlen : ((r.alternatives.set i (r.alternatives.getD
        (r.alternatives.length - 1) [])).set
        (r.alternatives.length - 1) (r.alternatives.getD i [])).length =
        r.alternatives.length := by simp
    rw [hlen, List.getElem?_set_eq_of_lt _ (by simp; omega)]
    simpa [List.getElem?_eq_getElem hi] using hp

/-- Claim C5 (corrected).  `put_epsilon_last` preserves every rule's name,
recursion number and alternative multiset, and moves an `[EPSILON]`
alternative into the last slot — but by *swapping* it with the previously
last alternative, so the relative order of the non-ε alternatives is not
preserved.  Left-factoring `R -> ID FN | ID | ID RETURN | ID STRING`
produces the fresh rule `R__0 -> FN | STRING | RETURN | ε` (insertion
order was FN, ε, RETURN, STRING before the swap). -/
theorem claim_C5 :
    (∀ r : Rule,
      (Rules.putEpsilonLastRule r).name = r.name ∧
      (Rules.putEpsilonLastRule r).recursionEliminationNum =
        r.recursionEliminationNum ∧
      (Rules.putEpsilonLastRule r).alternatives.Perm r.alternatives) ∧
    (∀ (r : Rule) (i : Nat),
      r.alternatives.findIdx? Rules.isEpsAlt = some i →
      1 < r.alternatives.length →
      Rules.isEpsAlt ((Rules.putEpsilonLastRule r).alternatives.getLastD []) = true) ∧
    Rules.eliminateLeftCommonPfx 10 c5G = some (some (⟨[
      ⟨"R", 0, [[.token .Id, .rule "R__0"]]⟩,
      ⟨"R__0", 1, [[.token .Fn], [.token .String], [.token .Return],
                   [.token .Epsilon]]⟩]⟩, true)) :=
  ⟨putEpsilonLastRule_perm, putEpsilonLastRule_eps_last, by decide⟩

/-- Claim C5 counterexample.  Left-factoring the validated grammar
`R -> ID FN | ID | ID RETURN | ID STRING` yields
`R__0 -> FN | STRING | RETURN | ε`, not the insertion-ordered
`FN | RETURN | STRING | ε`: the ε swap exchanged ε with the last
alternative.  And direct left-recursion elimination (which, unlike the
other transformations, never reaches its `put_epsilon_last` call because
its change flag is always false) leaves rule `B`'s ε alternative in first
position. -/
theorem claim_C5_counterexample :
    Rules.validate c5G = some (.ok ()) ∧
    Rules.eliminateLeftCommonPfx 10 c5G ≠ some (some (⟨[
      ⟨"R", 0, [[.token .Id, .rule "R__0"]]⟩,
      ⟨"R__0", 1, [[.token .Fn], [.token .Return], [.token .String],
                   [.token .Epsilon]]⟩]⟩, true)) ∧
    Rules.validate c5DirectG = some (.ok ()) ∧
    Rules.eliminateDirectLeftRecursions c5DirectG = some ⟨[
      ⟨"A", 0, [[.token .Id, .rule "A__0"]]⟩,
      ⟨"B", 1, [[.token .Epsilon], [.token .Id]]⟩,
      ⟨"A__0", 2, [[.token .Fn, .rule "A__0"], [.token .Epsilon]]⟩]⟩ := by
  decide

/-- `make_ready_for_recursive_decent` returns `Ok` only through a round
whose left-factoring reports no change. -/
theorem makeReady_ok_imp (lrFuel elcpFuel : Nat) :
    ∀ (n : Nat) (g gOut : Rules),
      Rules.makeReadyForRecursiveDecent lrFuel elcpFuel g n =
        some (.ok gOut) →
      ∃ g2, Rules.eliminateLeftCommonPfx elcpFuel g2 =
        some (some (gOut, false)) := by
  intro n
  induction n with
  | zero =>
    intro g gOut h
    simp [Rules.makeReadyForRecursiveDecent] at h
  | succ m ih =>
    intro g gOut h
    unfold Rules.makeReadyForRecursiveDecent at h
    rcases h1 : Rules.eliminateLeftRecursions lrFuel g with _ | g2
    · simp only [h1] at h
      cases h
    · simp only [h1] at h
      rcases h2 : Rules.eliminateLeftCommonPfx elcpFuel g2 with _ | inner
      · simp only [h2] at h
        cases h
      · rcases inner with _ | ⟨g3, flag⟩
        · simp only [h2] at h
          cases h
        · cases flag
          · simp only [h2] at h
            obtain rfl : g3 = gOut := by simpa using h
            exact ⟨g2, h2⟩
          · simp only [h2] at h
            exact ih g3 gOut h

/-- Claim C9 (confirmed).  `make_ready_for_recursive_decent` returns `Ok`
only when some round within the budget finds left-factoring at a fixed
point, and with `max_loop = 0` it returns the not-converging error
unconditionally — even on `r -> ID`, which is already left-recursion-free
and left-factored (it succeeds with budget 1). -/
theorem claim_C9 :
    (∀ (lrFuel elcpFuel n : Nat) (g gOut : Rules),
      Rules.makeReadyForRecursiveDecent lrFuel elcpFuel g n =
        some (.ok gOut) →
      ∃ g2, Rules.eliminateLeftCommonPfx elcpFuel g2 =
        some (some (gOut, false))) ∧
    (∀ (lrFuel elcpFuel : Nat) (g : Rules),
      Rules.makeReadyForRecursiveDecent lrFuel elcpFuel g 0 =
        some (.error "max loop reached but grammar was not fixed")) ∧
    Rules.makeReadyForRecursiveDecent 10 10 c9G 0 =
      some (.error "max loop reached but grammar was not fixed") ∧
    Rules.makeReadyForRecursiveDecent 10 10 c9G 1 = some (.ok c9G) :=
  ⟨fun lrFuel elcpFuel => makeReady_ok_imp lrFuel elcpFuel,
    fun _ _ _ => rfl, by decide, by decide⟩

/-- A rule whose every alternative begins with a self-reference never
validates. -/
theorem validate_all_self_ref (r : Rule)
    (h : ∀ alt ∈ r.alternatives, recAltPred r.name alt = true) :
    (Rule.validate r).isOk = false := by
  unfold Rule.validate
  dsimp only
  split_ifs with h1 h2 h3 h4 h5
  any_goals rfl
  exfalso
  obtain ⟨alt, hmem, hf⟩ := List.any_eq_true.mp h2
  have hrec := h alt hmem
  rcases alt with _ | ⟨p, rest⟩
  · simp [recAltPred] at hrec
  · rcases p with n | k
    · simp [recAltPred] at hrec
      simp [RulePart.isToken, RulePart.name] at hf
      exact hf (by simpa [RulePart.name] using hrec.2)
    · simp [recAltPred, RulePart.isRule] at hrec

/-- A rule with a single-part self-reference alternative never
validates. -/
theorem validate_single_self_ref (r : Rule)
    (hmem : [RulePart.rule r.name] ∈ r.alternatives) :
    (Rule.validate r).isOk = false := by
  unfold Rule.validate
  dsimp only
  split_ifs with h1 h2 h3 h4 h5
  any_goals rfl
  exfalso
  apply h3
  refine List.any_eq_true.mpr ⟨[RulePart.rule r.name], hmem, ?_⟩
  simp [RulePart.isRule, RulePart.name]

/-- Claim C6 (confirmed).  Rule validation errors on every rule whose
alternatives all begin with a self-reference (including via the
earlier duplicate-alternative check when both apply), and on every rule
with a single-part self-reference alternative; two concrete rules hit
the two dedicated error messages. -/
theorem claim_C6 :
    (∀ r : Rule, (∀ alt ∈ r.alternatives, recAltPred r.name alt = true) →
      (Rule.validate r).isOk = false) ∧
    (∀ r : Rule, [RulePart.rule r.name] ∈ r.alternatives →
      (Rule.validate r).isOk = false) ∧
    Rule.validate ⟨"r0", 0, [[.rule "r0", .token .Fn],
      [.rule "r0", .token .Id]]⟩ =
      .error "infinitely recursive rule: all sub-rules recurse to the same rule" ∧
    Rule.validate ⟨"r0", 0, [[.token .Id], [.rule "r0"]]⟩ =
      .error "pointless rule: a singly sub-rule refers to the same rule" :=
  ⟨validate_all_self_ref, validate_single_self_ref, by decide, by decide⟩

theorem findOffJ_none_iff (starts : Nat → TkSet) (i : Nat) :
    ∀ js : List Nat, findOffJ starts i js = none ↔
      ∀ j ∈ js, ((starts i).any (fun k => k ∈ starts j)) = false := by
  intro js
  induction js with
  | nil => simp [findOffJ]
  | cons j js ih =>
    unfold findOffJ
    by_cases hj : ((starts i).any (fun k => k ∈ starts j)) = true
    · simp [hj]
      intro h
      obtain ⟨k, hk, hkj⟩ := List.any_eq_true.mp hj
      exact absurd (by simpa using hkj) (h k hk)
    · simp only [Bool.not_eq_true] at hj
      simp [hj, ih]
      intro _ x hx hxj
      have hx2 : ((starts i).any (fun k => k ∈ starts j)) = true :=
        List.any_eq_true.mpr ⟨x, hx, by simpa using hxj⟩
      rw [hj] at hx2
      cases hx2

theorem findOffJ_some_range' (starts : Nat → TkSet) (i : Nat) :
    ∀ (m s j : Nat), findOffJ starts i (List.range' s m) = some j →
      s ≤ j ∧ j < s + m ∧
      ((starts i).any (fun k => k ∈ starts j)) = true ∧
      ∀ j', s ≤ j' → j' < j →
        ((starts i).any (fun k => k ∈ starts j')) = false := by
  intro m
  induction m with
  | zero => intro s j h; simp [findOffJ] at h
  | succ t ih =>
    intro s j h
    rw [List.range'_succ] at h
    unfold findOffJ at h
    by_cases hs : ((starts i).any (fun k => k ∈ starts s)) = true
    · rw [if_pos hs] at h
      obtain rfl : s = j := by simpa using h
      exact ⟨Nat.le_refl s, by omega, hs, fun j' h1 h2 => absurd h1 (by omega)⟩
    · simp only [Bool.not_eq_true] at hs
      rw [if_neg (by simp [hs])] at h
      obtain ⟨h1, h2, h3, h4⟩ := ih (s + 1) j h
      refine ⟨by omega, by omega, h3, ?_⟩
      intro j' hj1 hj2
      rcases Nat.eq_or_lt_of_le hj1 with rfl | hgt
      · exact hs
      · exact h4 j' hgt hj2

theorem findOffI_none_iff (starts : Nat → TkSet) :
    ∀ is_ : List Nat, findOffI starts is_ = none ↔
      ∀ i ∈ is_, findOffJ starts i (List.range i) = none := by
  intro is_
  induction is_ with
  | nil => simp [findOffI]
  | cons i is_ ih =>
    unfold findOffI
    rcases hJ : findOffJ starts i (List.range i) with _ | j
    · simp [hJ, ih]
    · simp [hJ]

theorem findOffI_some_range' (starts : Nat → TkSet) :
    ∀ (m s i j : Nat), findOffI starts (List.range' s m) = some (i, j) →
      s ≤ i ∧ i < s + m ∧
      findOffJ starts i (List.range i) = some j ∧
      ∀ i', s ≤ i' → i' < i →
        findOffJ starts i' (List.range i') = none := by
  intro m
  induction m with
  | zero => intro s i j h; simp [findOffI] at h
  | succ t ih =>
    intro s i j h
    rw [List.range'_succ] at h
    unfold findOffI at h
    rcases hJ : findOffJ starts s (List.range s) with _ | j'
    · rw [hJ] at h
      obtain ⟨h1, h2, h3, h4⟩ := ih (s + 1) i j h
      refine ⟨by omega, by omega, h3, ?_⟩
      intro i' hi1 hi2
      rcases Nat.eq_or_lt_of_le hi1 with rfl | hgt
      · exact hJ
      · exact h4 i' hgt hi2
    · rw [hJ] at h
      obtain ⟨rfl, rfl⟩ : s = i ∧ j' = j := by
        constructor <;> [skip; skip] <;> cases h <;> rfl
      exact ⟨Nat.le_refl s, by omega, hJ,
        fun i' h1 h2 => absurd h1 (by omega)⟩

/-- `find_offender` finds nothing exactly when the rule's alternatives'
START sets are pairwise disjoint. -/
theorem findOffender_none_iff (start : StartMap) (r : Rule) :
    findOffender (fun n => startGet start (r.name, n))
        r.alternatives.length = none ↔
      ruleBacktrackFree start r := by
  unfold findOffender ruleBacktrackFree
  rw [findOffI_none_iff]
  constructor
  · intro h i j hji hilen k hk0
    rcases Nat.eq_zero_or_pos i with rfl | hipos
    · omega
    · have hi : i ∈ List.range' 1 (r.alternatives.length - 1) := by
        rw [List.mem_range']
        exact ⟨i - 1, by omega, by omega⟩
      have hJ := (findOffJ_none_iff _ i _).mp (h i hi) j
        (by simp [List.mem_range]; omega)
      intro hk1
      have : ((startGet start (r.name, i)).any
          (fun k => k ∈ startGet start (r.name, j))) = true :=
        List.any_eq_true.mpr ⟨k, hk0, by simpa using hk1⟩
      rw [hJ] at this
      cases this
  · intro h i hi
    rw [findOffJ_none_iff]
    intro j hj
    rw [List.mem_range'] at hi
    obtain ⟨di, hdi, rfl⟩ := hi
    simp only [List.mem_range] at hj
    rcases hA : ((startGet start (r.name, 1 + 1 * di)).any
        (fun k => k ∈ startGet start (r.name, j))) with _ | _
    · rfl
    · obtain ⟨k, hk0, hk1⟩ := List.any_eq_true.mp hA
      exact absurd (by simpa using hk1)
        (h (1 + 1 * di) j hj (by omega) k hk0)

/-- The rule loop accepts exactly the backtrack-free rule lists. -/
theorem isBacktrackFreeGo_ok_iff (start : StartMap) :
    ∀ rs : List Rule, isBacktrackFreeGo start rs = .ok () ↔
      ∀ r ∈ rs, ruleBacktrackFree start r := by
  intro rs
  induction rs with
  | nil => simp [isBacktrackFreeGo]
  | cons r rest ih =>
    unfold isBacktrackFreeGo
    by_cases hlen : r.alternatives.length < 2
    · rw [if_pos hlen, ih]
      have hr : ruleBacktrackFree start r := by
        intro i j hji hilen k hk0
        omega
      simp [hr]
    · rw [if_neg hlen]
      rcases hoff : findOffender (fun n => startGet start (r.name, n))
          r.alternatives.length with _ | ⟨i, j⟩
      · simp only [hoff]
        have hr : ruleBacktrackFree start r :=
          (findOffender_none_iff start r).mp hoff
        rw [ih]
        simp [hr]
      · simp only [hoff]
        constructor
        · intro h; cases h
        · intro h
          exfalso
          have hr : ruleBacktrackFree start r := h r (by simp)
          rw [← findOffender_none_iff start r] at hr
          rw [hr] at hoff
          cases hoff

/-- A failing rule loop pinpoints the first offending rule and pair. -/
theorem isBacktrackFreeGo_error (start : StartMap) :
    ∀ (rs : List Rule) (e : BacktrackError),
      isBacktrackFreeGo start rs = .error e →
      ∃ pre r post, rs = pre ++ r :: post ∧
        (∀ r' ∈ pre, ruleBacktrackFree start r') ∧
        2 ≤ r.alternatives.length ∧
        e.ruleName = r.name ∧
        findOffender (fun n => startGet start (r.name, n))
          r.alternatives.length = some (e.i, e.j) ∧
        e.set0 = startGet start (r.name, e.i) ∧
        e.set1 = startGet start (r.name, e.j) ∧
        e.intersection = e.set0.filter (fun k => k ∈ e.set1) := by
  intro rs
  induction rs with
  | nil => intro e h; cases h
  | cons r rest ih =>
    intro e h
    unfold isBacktrackFreeGo at h
    by_cases hlen : r.alternatives.length < 2
    · rw [if_pos hlen] at h
      obtain ⟨pre, r2, post, hsplit, hpre, hrest⟩ := ih e h
      refine ⟨r :: pre, r2, post, by simp [hsplit], ?_, hrest⟩
      intro r' hr'
      rcases List.mem_cons.mp hr' with rfl | hr'
      · intro i j hji hilen k hk0
        omega
      · exact hpre r' hr'
    · rw [if_neg hlen] at h
      rcases hoff : findOffender (fun n => startGet start (r.name, n))
          r.alternatives.length with _ | ⟨i, j⟩
      · simp only [hoff] at h
        obtain ⟨pre, r2, post, hsplit, hpre, hrest⟩ := ih e h
        refine ⟨r :: pre, r2, post, by simp [hsplit], ?_, hrest⟩
        intro r' hr'
        rcases List.mem_cons.mp hr' with rfl | hr'
        · exact (findOffender_none_iff start r').mp hoff
        · exact hpre r' hr'
      · simp only [hoff] at h
        obtain rfl : (⟨r.name, i, j, startGet start (r.name, i),
            startGet start (r.name, j),
            (startGet start (r.name, i)).filter
              (fun k => k ∈ startGet start (r.name, j))⟩ :
            BacktrackError) = e := by
          simpa using h
        exact ⟨[], r, rest, rfl, by simp, by omega, rfl, hoff, rfl, rfl, rfl⟩

/-- Claim C3 (confirmed).  The backtrack-freeness check succeeds exactly
when every rule's alternatives have pairwise disjoint START sets (for
rules with fewer than two alternatives the condition is vacuous), and on
failure the error carries the first offending rule (all earlier rules
are clean), the first offending pair `(i, j)` in scan order (`i`
ascending, then `j`), both START sets, and their nonempty intersection.
`r -> ID FN | ID` fails with exactly that data, while
`R -> A RETURN ; A -> ID | EPSILON` passes. -/
theorem claim_C3 :
    (∀ g : Rules, Rules.isBacktrackFree g = .ok () ↔
      ∀ r ∈ g.rules, ruleBacktrackFree (Rules.startSet g) r) ∧
    (∀ (g : Rules) (e : BacktrackError),
      Rules.isBacktrackFree g = .error e →
      ∃ pre r post, g.rules = pre ++ r :: post ∧
        (∀ r' ∈ pre, ruleBacktrackFree (Rules.startSet g) r') ∧
        2 ≤ r.alternatives.length ∧
        e.ruleName = r.name ∧ e.j < e.i ∧ e.i < r.alternatives.length ∧
        e.set0 = startGet (Rules.startSet g) (r.name, e.i) ∧
        e.set1 = startGet (Rules.startSet g) (r.name, e.j) ∧
        e.intersection = e.set0.filter (fun k => k ∈ e.set1) ∧
        e.intersection ≠ [] ∧
        (∀ i' j', j' < i' → i' < r.alternatives.length →
          (i' < e.i ∨ (i' = e.i ∧ j' < e.j)) →
          ∀ k, k ∈ startGet (Rules.startSet g) (r.name, i') →
            k ∉ startGet (Rules.startSet g) (r.name, j'))) ∧
    Rules.isBacktrackFree c3G =
      .error ⟨"r", 1, 0, [.Id], [.Id], [.Id]⟩ ∧
    Rules.isBacktrackFree c2G = .ok () := by
  refine ⟨fun g => isBacktrackFreeGo_ok_iff (Rules.startSet g) g.rules,
    ?_, by decide, by decide⟩
  intro g e h
  obtain ⟨pre, r, post, hsplit, hpre, hlen, hname, hoff, hs0, hs1, hint⟩ :=
    isBacktrackFreeGo_error (Rules.startSet g) g.rules e h
  unfold findOffender at hoff
  obtain ⟨hi1, hi2, hJ, hInone⟩ := findOffI_some_range' _ _ 1 e.i e.j hoff
  rw [List.range_eq_range'] at hJ
  obtain ⟨-, hj2, hany, hJmin⟩ := findOffJ_some_range' _ e.i e.i 0 e.j hJ
  obtain ⟨k, hk0, hk1⟩ := List.any_eq_true.mp hany
  refine ⟨pre, r, post, hsplit, hpre, hlen, hname, by omega, by omega,
    hs0, hs1, hint, ?_, ?_⟩
  · rw [hint, hs0, hs1]
    exact List.ne_nil_of_mem (List.mem_filter.mpr ⟨hk0, hk1⟩)
  · intro i' j' hji hilen horder k' hk0' hk1'
    rcases horder with hlt | ⟨rfl, hjlt⟩
    · rcases Nat.eq_zero_or_pos i' with rfl | hipos
      · omega
      · have hnone := hInone i' (by omega) hlt
        have := (findOffJ_none_iff _ i' _).mp hnone j'
          (by simp [List.mem_range]; omega)
        have hx : ((startGet (Rules.startSet g) (r.name, i')).any
            (fun k => k ∈ startGet (Rules.startSet g) (r.name, j'))) =
            true := List.any_eq_true.mpr ⟨k', hk0', by simpa using hk1'⟩
        rw [this] at hx
        cases hx
    · have := hJmin j' (by omega) hjlt
      have hx : ((startGet (Rules.startSet g) (r.name, e.i)).any
          (fun k => k ∈ startGet (Rules.startSet g) (r.name, j'))) =
          true := List.any_eq_true.mpr ⟨k', hk0', by simpa using hk1'⟩
      rw [this] at hx
      cases hx

theorem startGet_cons (e : (Str × Nat) × TkSet) (m : StartMap)
    (k : Str × Nat) :
    startGet (e :: m) k = if e.fst = k then e.snd else startGet m k := by
  unfold startGet
  by_cases he : e.fst = k
  · simp [List.find?, he]
  · simp [List.find?, he]

theorem startGet_map_self (m : StartMap) (k : Str × Nat) (v : TkSet)
    (h : m.any (fun e => e.fst = k) = true) :
    startGet (m.map (fun e => if e.fst = k then (k, v) else e)) k = v := by
  induction m with
  | nil => cases h
  | cons e m ih =>
    rw [List.map_cons, startGet_cons]
    by_cases he : e.fst = k
    · simp [he]
    · have hih := ih (by simpa [he] using h)
      simp [he, hih]

theorem startGet_map_other (m : StartMap) (k k' : Str × Nat) (v : TkSet)
    (h : k' ≠ k) :
    startGet (m.map (fun e => if e.fst = k then (k, v) else e)) k' =
      startGet m k' := by
  induction m with
  | nil => rfl
  | cons e m ih =>
    rw [List.map_cons, startGet_cons, startGet_cons e m k']
    by_cases he : e.fst = k
    · have h2 : (if e.fst = k then ((k, v) : (Str × Nat) × TkSet) else e) =
          (k, v) := if_pos he
      rw [h2]
      have hk : ¬((k, v).fst = k') := by simpa using (Ne.symm h)
      rw [if_neg hk, if_neg (by rw [he]; exact fun hh => h hh.symm)]
      exact ih
    · have h2 : (if e.fst = k then ((k, v) : (Str × Nat) × TkSet) else e) =
          e := if_neg he
      rw [h2]
      by_cases he' : e.fst = k'
      · rw [if_pos he', if_pos he']
      · rw [if_neg he', if_neg he']
        exact ih

theorem startGet_append_self (m : StartMap) (k : Str × Nat) (v : TkSet)
    (h : m.any (fun e => e.fst = k) = false) :
    startGet (m ++ [(k, v)]) k = v := by
  induction m with
  | nil => simp [startGet, List.find?]
  | cons e m ih =>
    rw [List.cons_append, startGet_cons]
    have he : ¬(e.fst = k) := by
      intro hh
      simp [hh] at h
    rw [if_neg he]
    exact ih (by simpa [he] using h)

theorem startGet_append_other (m : StartMap) (k k' : Str × Nat)
    (v : TkSet) (h : k' ≠ k) :
    startGet (m ++ [(k, v)]) k' = startGet m k' := by
  induction m with
  | nil =>
    have hk : ¬(((k, v) : (Str × Nat) × TkSet).fst = k') := by
      simpa using (Ne.symm h)
    simp [startGet, List.find?, hk]
  | cons e m ih =>
    rw [List.cons_append, startGet_cons, startGet_cons e m k']
    by_cases he' : e.fst = k'
    · rw [if_pos he', if_pos he']
    · rw [if_neg he', if_neg he']
      exact ih

theorem startGet_startIns_self (m : StartMap) (k : Str × Nat) (v : TkSet) :
    startGet (startIns m k v) k = v := by
  unfold startIns
  by_cases hany : m.any (fun e => e.fst = k) = true
  · rw [if_pos hany]
    exact startGet_map_self m k v hany
  · rw [if_neg hany]
    exact startGet_append_self m k v (by
      rcases hb : m.any (fun e => e.fst = k) with _ | _
      · rfl
      · exact absurd hb hany)

theorem startGet_startIns_other (m : StartMap) (k k' : Str × Nat)
    (v : TkSet) (h : k' ≠ k) :
    startGet (startIns m k v) k' = startGet m k' := by
  unfold startIns
  by_cases hany : m.any (fun e => e.fst = k) = true
  · rw [if_pos hany]
    exact startGet_map_other m k k' v h
  · rw [if_neg hany]
    exact startGet_append_other m k k' v h

theorem startSet_inner_other (first follow : TkMap) (name : Str)
    (k : Str × Nat) (h : k.fst ≠ name) :
    ∀ (ps : List (Nat × List RulePart)) (m : StartMap),
      startGet (ps.foldl (fun m p =>
        startIns m (name, p.fst) (codeAltStart first follow name p.snd)) m)
        k = startGet m k := by
  intro ps
  induction ps with
  | nil => intro m; rfl
  | cons p ps ih =>
    intro m
    rw [List.foldl_cons, ih]
    exact startGet_startIns_other _ _ _ _ (by
      intro he
      rw [he] at h
      exact h rfl)

theorem startSet_inner_idx (first follow : TkMap) (name : Str) (i : Nat) :
    ∀ (ps : List (Nat × List RulePart)) (m : StartMap),
      i ∉ ps.map Prod.fst →
      startGet (ps.foldl (fun m p =>
        startIns m (name, p.fst) (codeAltStart first follow name p.snd)) m)
        (name, i) = startGet m (name, i) := by
  intro ps
  induction ps with
  | nil => intro m _; rfl
  | cons p ps ih =>
    intro m hi
    have hi1 : i ∉ ps.map Prod.fst := by
      intro hmem
      exact hi (by simp [hmem])
    have hi2 : p.fst ≠ i := by
      intro he
      exact hi (by simp [he])
    rw [List.foldl_cons, ih _ hi1]
    exact startGet_startIns_other _ _ _ _ (by
      intro he
      exact hi2 (by
        have := congrArg Prod.snd he
        simpa using this.symm))

theorem startSet_inner_found (first follow : TkMap) (name : Str) :
    ∀ (ps : List (Nat × List RulePart)) (m : StartMap)
      (i : Nat) (alt : List RulePart),
      (i, alt) ∈ ps → (ps.map Prod.fst).Nodup →
      startGet (ps.foldl (fun m p =>
        startIns m (name, p.fst) (codeAltStart first follow name p.snd)) m)
        (name, i) = codeAltStart first follow name alt := by
  intro ps
  induction ps with
  | nil => intro m i alt hmem _; cases hmem
  | cons p ps ih =>
    intro m i alt hmem hnodup
    rw [List.map_cons] at hnodup
    obtain ⟨hhead, htail⟩ := List.nodup_cons.mp hnodup
    rcases List.mem_cons.mp hmem with rfl | hmem'
    · have hnot : i ∉ ps.map Prod.fst := by simpa using hhead
      rw [List.foldl_cons, startSet_inner_idx first follow name i ps _ hnot]
      exact startGet_startIns_self _ _ _
    · rw [List.foldl_cons]
      exact ih _ i alt hmem' htail

theorem startSet_outer_other (first follow : TkMap) (nm : Str) (i : Nat) :
    ∀ (rs : List Rule) (m : StartMap), nm ∉ rs.map Rule.name →
      startGet (rs.foldl (fun m r =>
        r.alternatives.enum.foldl (fun m p =>
          startIns m (r.name, p.fst)
            (codeAltStart first follow r.name p.snd)) m) m)
        (nm, i) = startGet m (nm, i) := by
  intro rs
  induction rs with
  | nil => intro m _; rfl
  | cons r1 rs1 ih =>
    intro m hnot
    have hname1 : nm ≠ r1.name := by
      intro he
      exact hnot (by simp [he])
    have hrest : nm ∉ rs1.map Rule.name := by
      intro hmem1
      exact hnot (by simp [hmem1])
    rw [List.foldl_cons, ih _ hrest]
    exact startSet_inner_other first follow r1.name (nm, i) hname1 _ _

theorem startSet_outer_found (first follow : TkMap) :
    ∀ (rs : List Rule) (m : StartMap) (r : Rule) (i : Nat)
      (alt : List RulePart),
      (rs.map Rule.name).Nodup → r ∈ rs →
      (i, alt) ∈ r.alternatives.enum →
      startGet (rs.foldl (fun m r =>
        r.alternatives.enum.foldl (fun m p =>
          startIns m (r.name, p.fst)
            (codeAltStart first follow r.name p.snd)) m) m)
        (r.name, i) = codeAltStart first follow r.name alt := by
  intro rs
  induction rs with
  | nil => intro m r i alt _ hmem _; cases hmem
  | cons r0 rs ih =>
    intro m r i alt hnodup hmem halt
    obtain ⟨hnotin, hnodup'⟩ := List.nodup_cons.mp hnodup
    rcases List.mem_cons.mp hmem with rfl | hmem'
    · rw [List.foldl_cons,
        startSet_outer_other first follow r.name i rs _ (by simpa using hnotin)]
      exact startSet_inner_found first follow r.name r.alternatives.enum
        _ i alt halt (by
          rw [List.enum_map_fst]
          exact List.nodup_range _)
    · rw [List.foldl_cons]
      exact ih _ r i alt hnodup' hmem' halt

/-- Claim C2 (corrected).  For every grammar with distinct rule names
(which validation guarantees), the computed START(R, i) is
`codeAltStart`: the FIRST set of the alternative's *first part* — with ε
removed and FOLLOW(R) unioned in exactly when ε is in that first part's
FIRST — not the FIRST of the whole alternative with the whole-alternative
ε-ability condition.  On `R -> A RETURN ; A -> ID | EPSILON` the computed
START(R, 0) is `[ID]`. -/
theorem claim_C2 :
    (∀ (g : Rules) (r : Rule) (i : Nat) (alt : List RulePart),
      (g.rules.map Rule.name).Nodup → r ∈ g.rules →
      r.alternatives[i]? = some alt →
      startGet (Rules.startSet g) (r.name, i) =
        codeAltStart (Rules.firstSet g) (Rules.followSet g) r.name alt) ∧
    startGet (Rules.startSet c2G) ("R", 0) = [.Id] ∧
    codeAltStart (Rules.firstSet c2G) (Rules.followSet c2G) "R"
      [.rule "A", .token .Return] = [.Id] := by
  refine ⟨?_, by decide, by decide⟩
  intro g r i alt hnodup hmem halt
  have henum : (i, alt) ∈ r.alternatives.enum :=
    List.mem_enum_iff_getElem?.mpr halt
  unfold Rules.startSet
  exact startSet_outer_found (Rules.firstSet g) (Rules.followSet g)
    g.rules [] r i alt hnodup hmem henum

/-- Claim C2 counterexample.  On the validated grammar
`R -> A RETURN ; A -> ID | EPSILON`, the spec's formula (FIRST of the
whole alternative minus ε, FOLLOW only if the entire alternative is
ε-able) contains `RETURN` for `R`'s only alternative, but the computed
START(R, 0) does not: the code only consults FIRST of the first part
`A`, and because `A` is ε-able it even unions in FOLLOW(R) although the
alternative as a whole can never derive ε. -/
theorem claim_C2_counterexample :
    Rules.validate c2G = some (.ok ()) ∧
    TokenKind.Return ∈ specAltStart (Rules.firstSet c2G)
      (Rules.followSet c2G) "R" [.rule "A", .token .Return] ∧
    TokenKind.Return ∉ startGet (Rules.startSet c2G) ("R", 0) ∧
    startGet (Rules.startSet c2G) ("R", 0) ≠
      specAltStart (Rules.firstSet c2G) (Rules.followSet c2G) "R"
        [.rule "A", .token .Return] := by
  decide

theorem scanNumberGo_latch :
    ∀ (fuel : Nat) (s : LexState) (e : Str) (s2 : LexState),
      LexState.scanNumberGo fuel s = (.error e, s2) → s2.isError = true := by
  intro fuel
  induction fuel with
  | zero => intro s e s2 h; cases h
  | succ n ih =>
    intro s e s2 h
    unfold LexState.scanNumberGo at h
    simp only [List.get?_eq_getElem?] at h
    rcases hget : s.text[s.pos]? with _ | c
    · simp [hget] at h
    · simp only [hget] at h
      by_cases hd : c.isDigit = true
      · rw [if_pos hd] at h
        exact ih _ e s2 h
      · rw [if_neg hd] at h
        by_cases ha : c.isAlpha = true
        · rw [if_pos ha] at h
          obtain ⟨-, rfl⟩ : _ ∧ { s with isError := true } = s2 := by
            simpa using h
          rfl
        · rw [if_neg ha] at h
          cases h

theorem scanStringGo_latch (start : Nat) :
    ∀ (fuel : Nat) (s : LexState) (e : Str) (s2 : LexState),
      LexState.scanStringGo start fuel s = (.error e, s2) →
      s2.isError = true := by
  intro fuel
  induction fuel with
  | zero => intro s e s2 h; cases h
  | succ n ih =>
    intro s e s2 h
    unfold LexState.scanStringGo at h
    simp only [List.get?_eq_getElem?] at h
    rcases hget : s.text[s.pos]? with _ | c
    · simp only [hget] at h
      obtain ⟨-, rfl⟩ : _ ∧ { s with isError := true } = s2 := by
        simpa using h
      rfl
    · simp only [hget] at h
      by_cases h1 : c = '"'
      · rw [if_pos h1] at h
        by_cases h2 : s.inEscape = true
        · rw [if_pos h2] at h
          exact ih _ e s2 h
        · rw [if_neg h2] at h
          cases h
      · rw [if_neg h1] at h
        by_cases h3 : c = Char.ofNat 92
        · rw [if_pos h3] at h
          exact ih _ e s2 h
        · rw [if_neg h3] at h
          by_cases h4 : c = Char.ofNat 10
          · rw [if_pos h4] at h
            exact ih _ e s2 h
          · rw [if_neg h4] at h
            exact ih _ e s2 h

theorem readNext_error_stuck (s : LexState) (e : Str) (s2 : LexState)
    (h : LexState.readNext s = (.error e, s2)) : stuck s2 := by
  simp only [LexState.readNext, List.get?_eq_getElem?] at h
  rcases hget : (LexState.startBuffer s).text[(LexState.startBuffer s).pos]?
      with _ | c
  · simp [hget] at h
  · simp only [hget] at h
    by_cases h1 : c = ' '
    · rw [if_pos h1] at h; cases h
    · rw [if_neg h1] at h
      by_cases h2 : c = Char.ofNat 10
      · rw [if_pos h2] at h; cases h
      · rw [if_neg h2] at h
        by_cases h3 : (c.isAlpha || c = '_') = true
        · rw [if_pos h3] at h; cases h
        · rw [if_neg h3] at h
          by_cases h4 : c.isDigit = true
          · rw [if_pos h4] at h
            rcases hscan : LexState.scanNumber (LexState.startBuffer s)
              with ⟨res, st⟩
            rw [hscan] at h
            rcases res with e' | u
            · obtain ⟨rfl, rfl⟩ : e' = e ∧ st = s2 := by simpa using h
              exact Or.inl (scanNumberGo_latch _ _ _ _ hscan)
            · simp at h
          · rw [if_neg h4] at h
            by_cases h5 : c = '"'
            · rw [if_pos h5] at h
              rcases hscan : LexState.scanString (LexState.startBuffer s)
                with ⟨res, st⟩
              rw [hscan] at h
              rcases res with e' | u
              · obtain ⟨rfl, rfl⟩ : e' = e ∧ st = s2 := by simpa using h
                exact Or.inl (scanStringGo_latch _ _ _ _ _ hscan)
              · simp at h
            · rw [if_neg h5] at h
              by_cases h6 : c = ','
              · rw [if_pos h6] at h; cases h
              · rw [if_neg h6] at h
                by_cases h7 : c = ';'
                · rw [if_pos h7] at h; cases h
                · rw [if_neg h7] at h
                  by_cases h8 : c = '('
                  · rw [if_pos h8] at h; cases h
                  · rw [if_neg h8] at h
                    by_cases h9 : c = ')'
                    · rw [if_pos h9] at h; cases h
                    · rw [if_neg h9] at h
                      by_cases h10 : c = '/'
                      · rw [if_pos h10] at h; cases h
                      · rw [if_neg h10] at h
                        by_cases h11 : c = '*'
                        · rw [if_pos h11] at h; cases h
                        · rw [if_neg h11] at h
                          by_cases h12 : c = '+'
                          · rw [if_pos h12] at h; cases h
                          · rw [if_neg h12] at h
                            by_cases h13 : c = '-'
                            · rw [if_pos h13] at h; cases h
                            · rw [if_neg h13] at h
                              by_cases h14 : c = '='
                              · rw [if_pos h14] at h; cases h
                              · rw [if_neg h14] at h
                                by_cases h15 : c = Char.ofNat 123
                                · rw [if_pos h15] at h; cases h
                                · rw [if_neg h15] at h
                                  by_cases h16 : c = Char.ofNat 125
                                  · rw [if_pos h16] at h; cases h
                                  · rw [if_neg h16] at h
                                    by_cases h17 : c = '['
                                    · rw [if_pos h17] at h; cases h
                                    · rw [if_neg h17] at h
                                      by_cases h18 : c = ']'
                                      · rw [if_pos h18] at h; cases h
                                      · rw [if_neg h18] at h
                                        obtain ⟨-, rfl⟩ :
                                            _ ∧ LexState.startBuffer s = s2 := by
                                          simpa using h
                                        refine Or.inr ⟨c, hget, ?_⟩
                                        simp only [Bool.not_eq_true] at h3 h4
                                        simp [LexState.unknownChar, h1, h2, h4,
                                          h5, h6, h7, h8, h9, h10, h11, h12,
                                          h13, h14, h15, h16, h17, h18,
                                          Bool.or_eq_false_iff] at h3 ⊢
                                        simp [h3.1, h3.2]

theorem readTokenGo_error_stuck :
    ∀ (fuel : Nat) (s : LexState) (e : Str) (s2 : LexState),
      LexState.readTokenGo fuel s = (.error e, s2) → stuck s2 := by
  intro fuel
  induction fuel with
  | zero => intro s e s2 h; cases h
  | succ n ih =>
    intro s e s2 h
    unfold LexState.readTokenGo at h
    rcases hnext : LexState.readNext s with ⟨res, st⟩
    rw [hnext] at h
    rcases res with e' | v
    · obtain ⟨rfl, rfl⟩ : e' = e ∧ st = s2 := by simpa using h
      exact readNext_error_stuck s _ _ hnext
    · rcases v with _ | b
      · simp at h
      · rcases b with _ | _
        · exact ih st e s2 (by simpa using h)
        · simp at h

/-- A `read_token` error always leaves the lexer error-stuck: either the
latch got set (number or string scan errors, and the latch fast path) or
the position still points at a rejected character. -/
theorem readToken_error_stuck (s : LexState) (e : Str) (s2 : LexState)
    (h : LexState.readToken s = (.error e, s2)) : stuck s2 := by
  unfold LexState.readToken at h
  by_cases hl : s.isError = true
  · rw [if_pos hl] at h
    obtain ⟨-, rfl⟩ : _ ∧ s = s2 := by simpa using h
    exact Or.inl hl
  · rw [if_neg hl] at h
    exact readTokenGo_error_stuck _ s e s2 h

/-- An error-stuck lexer errors again on the next `read_token` call, and
stays stuck: errors latch forever. -/
theorem stuck_readToken_error (s : LexState) (h : stuck s) :
    ∃ e s2, LexState.readToken s = (.error e, s2) ∧ stuck s2 := by
  rcases h with hl | ⟨c, hget, hunk⟩
  · exact ⟨"lexer has previously encountered an error", s,
      by simp [LexState.readToken, hl], Or.inl hl⟩
  · by_cases hl : s.isError = true
    · exact ⟨"lexer has previously encountered an error", s,
        by simp [LexState.readToken, hl], Or.inl hl⟩
    · have hpos : s.pos < s.text.length := by
        by_contra hge
        rw [List.getElem?_eq_none (by omega)] at hget
        cases hget
      have hcond : LexState.unknownChar c = true := hunk
      simp [LexState.unknownChar] at hcond
      have hget' : (LexState.startBuffer s).text[
          (LexState.startBuffer s).pos]? = some c := hget
      have hnext : LexState.readNext s =
          (.error ("unexpected character at line=" ++
            toString (LexState.startBuffer s).currentLine ++ " pos=" ++
            toString (LexState.startBuffer s).pos ++ ": " ++ c.toString),
            LexState.startBuffer s) := by
        simp only [LexState.readNext, List.get?_eq_getElem?, hget']
        simp [hcond]
      have hfuel : ∃ k, s.text.length + 1 - s.pos = k + 1 :=
        ⟨s.text.length - s.pos, by omega⟩
      obtain ⟨k, hk⟩ := hfuel
      refine ⟨"unexpected character at line=" ++
          toString (LexState.startBuffer s).currentLine ++ " pos=" ++
          toString (LexState.startBuffer s).pos ++ ": " ++ c.toString,
        LexState.startBuffer s, ?_, Or.inr ⟨c, hget', hunk⟩⟩
      unfold LexState.readToken
      rw [if_neg hl, hk]
      unfold LexState.readTokenGo
      rw [hnext]

theorem items_of_finished (it : LexerIter) (h : it.iterFinished = true) :
    ∀ fuel, LexerIter.items fuel it = [] := by
  intro fuel
  cases fuel with
  | zero => rfl
  | succ n =>
    unfold LexerIter.items LexerIter.next
    rw [if_pos h]

theorem next_error_finished (it : LexerIter) (e : Str) (it2 : LexerIter)
    (h : LexerIter.next it = (some (.error e), it2)) :
    it2.iterFinished = true := by
  unfold LexerIter.next at h
  by_cases hf : it.iterFinished = true
  · rw [if_pos hf] at h
    cases h
  · rw [if_neg hf] at h
    rcases hrt : LexState.readToken it.lexer with ⟨res, st⟩
    rw [hrt] at h
    rcases res with e' | v
    · obtain ⟨-, rfl⟩ : _ ∧ ({ lexer := st, iterFinished := true } :
          LexerIter) = it2 := by simpa using h
      rfl
    · rcases v with _ | tok
      · simp at h
      · simp at h

theorem items_error_last :
    ∀ (fuel : Nat) (it : LexerIter) (pre : List (Except Str Token))
      (e : Str) (post : List (Except Str Token)),
      LexerIter.items fuel it = pre ++ .error e :: post → post = [] := by
  intro fuel
  induction fuel with
  | zero =>
    intro it pre e post h
    rcases pre with _ | ⟨p, pre⟩ <;> cases h
  | succ n ih =>
    intro it pre e post h
    unfold LexerIter.items at h
    rcases hnext : LexerIter.next it with ⟨r, it2⟩
    rw [hnext] at h
    rcases r with _ | r
    · rcases pre with _ | ⟨p, pre⟩ <;> cases h
    · rcases pre with _ | ⟨p, pre⟩
      · obtain ⟨rfl, hrest⟩ : r = Except.error e ∧
            LexerIter.items n it2 = post := by simpa using h
        rw [← hrest]
        exact items_of_finished it2 (next_error_finished it e it2 hnext) n
      · obtain ⟨rfl, hrest⟩ : r = p ∧
            LexerIter.items n it2 = pre ++ .error e :: post := by
          simpa using h
        exact ih it2 pre e post hrest

/-- Claim C10 (confirmed).  Lexer errors latch: every `read_token` error
leaves the lexer in an error-stuck state, every error-stuck state makes
the next `read_token` call return an error again while staying stuck
(so, inductively, all subsequent calls error), and the token iterator
finishes at its first `Err`, never yielding an item after it.  On the
input `1a` the first call errors on the digit-then-letter token, the
second call reports the latch, and the iterator yields exactly one
item. -/
theorem claim_C10 :
    (∀ (s : LexState) (e : Str) (s2 : LexState),
      LexState.readToken s = (.error e, s2) → stuck s2) ∧
    (∀ s : LexState, stuck s →
      ∃ e s2, LexState.readToken s = (.error e, s2) ∧ stuck s2) ∧
    (∀ (it : LexerIter) (e : Str) (it2 : LexerIter),
      LexerIter.next it = (some (.error e), it2) →
      it2.iterFinished = true) ∧
    (∀ it : LexerIter, it.iterFinished = true →
      ∀ fuel, LexerIter.items fuel it = []) ∧
    (∀ (fuel : Nat) (it : LexerIter) (pre : List (Except Str Token))
      (e : Str) (post : List (Except Str Token)),
      LexerIter.items fuel it = pre ++ .error e :: post → post = []) ∧
    (LexState.new c10Text).map (fun s => ((LexState.readToken s).fst,
      (LexState.readToken (LexState.readToken s).snd).fst)) =
      some (.error "unexpected char while reading number, line=1 char=a",
        .error "lexer has previously encountered an error") ∧
    (LexState.new c10Text).map (fun s => LexerIter.items 10 ⟨s, false⟩) =
      some [.error "unexpected char while reading number, line=1 char=a"] :=
  ⟨readToken_error_stuck, stuck_readToken_error, next_error_finished,
    items_of_finished, items_error_last, by decide, by decide⟩

theorem alpha_not_digit (c : Char) (h : c.isAlpha = true) :
    c.isDigit = false := by
  have h48 : (UInt32.toBitVec 48).toNat = 48 := by decide
  have h57 : (UInt32.toBitVec 57).toNat = 57 := by decide
  have h65 : (UInt32.toBitVec 65).toNat = 65 := by decide
  have h90 : (UInt32.toBitVec 90).toNat = 90 := by decide
  have h97 : (UInt32.toBitVec 97).toNat = 97 := by decide
  have h122 : (UInt32.toBitVec 122).toNat = 122 := by decide
  simp only [Char.isDigit, Char.isAlpha, Char.isUpper, Char.isLower,
    Bool.and_eq_true, Bool.or_eq_true, Bool.and_eq_false_iff,
    Bool.or_eq_false_iff, decide_eq_true_eq, decide_eq_false_iff_not,
    UInt32.le_def, UInt32.not_le, UInt32.lt_def, BitVec.le_def,
    BitVec.lt_def, h48, h57, h65, h90, h97, h122] at *
  omega

theorem digit_not_alpha (c : Char) (h : c.isDigit = true) :
    c.isAlpha = false := by
  rcases ha : c.isAlpha with _ | _
  · rfl
  · rw [alpha_not_digit c ha] at h
    cases h

/-- Scanning a run of digits that ends at an ASCII letter reports the
number error and latches the error flag. -/
theorem scanNumberGo_run :
    ∀ (ds pre rest : List Char) (letter : Char) (s : LexState)
      (fuel : Nat),
      (∀ c ∈ ds, c.isDigit = true) → letter.isAlpha = true →
      s.text = pre ++ ds ++ letter :: rest → s.pos = pre.length →
      ds.length + 1 ≤ fuel →
      ∃ s2, LexState.scanNumberGo fuel s =
        (.error ("unexpected char while reading number, line=" ++
          toString s.currentLine ++ " char=" ++ letter.toString), s2) ∧
        s2.isError = true := by
  intro ds
  induction ds with
  | nil =>
    intro pre rest letter s fuel hds hl htext hpos hfuel
    rcases fuel with _ | n
    · omega
    · have hget : s.text[s.pos]? = some letter := by
        rw [htext, hpos]
        simp only [List.nil_append, List.append_nil]
        rw [List.getElem?_append_right (Nat.le_refl _)]
        simp
      unfold LexState.scanNumberGo
      simp only [List.get?_eq_getElem?, hget]
      rw [if_neg (by rw [alpha_not_digit letter hl]; simp), if_pos hl]
      exact ⟨{ s with isError := true }, rfl, rfl⟩
  | cons d ds ih =>
    intro pre rest letter s fuel hds hl htext hpos hfuel
    rcases fuel with _ | n
    · simp at hfuel
    · have hget : s.text[s.pos]? = some d := by
        rw [htext, hpos, List.append_assoc]
        rw [List.getElem?_append_right (Nat.le_refl _)]
        simp
      unfold LexState.scanNumberGo
      simp only [List.get?_eq_getElem?, hget]
      rw [if_pos (hds d (by simp))]
      have := ih (pre ++ [d]) rest letter (LexState.addToBufferAndNext s) n
        (fun c hc => hds c (by simp [hc])) hl
        (by simp [LexState.addToBufferAndNext, htext])
        (by simp [LexState.addToBufferAndNext, hpos])
        (by simp at hfuel ⊢; omega)
      simpa [LexState.addToBufferAndNext] using this

/-- A `read_next` that starts at a digit run immediately followed by an
ASCII letter reports the number error (it never produces an `INT`
token) and latches the error flag. -/
theorem readNext_digit_letter (s0 : LexState) (pre ds rest : List Char)
    (d letter : Char) (hd : d.isDigit = true)
    (hds : ∀ c ∈ ds, c.isDigit = true) (hl : letter.isAlpha = true)
    (htext : s0.text = pre ++ d :: ds ++ letter :: rest)
    (hpos : s0.pos = pre.length) :
    ∃ s2, LexState.readNext s0 =
      (.error ("unexpected char while reading number, line=" ++
        toString s0.currentLine ++ " char=" ++ letter.toString), s2) ∧
      s2.isError = true := by
  have hget : (LexState.startBuffer s0).text[
      (LexState.startBuffer s0).pos]? = some d := by
    show s0.text[s0.pos]? = some d
    rw [htext, hpos, List.append_assoc]
    rw [List.getElem?_append_right (Nat.le_refl _)]
    simp
  have hd1 : ¬(d = ' ') := by
    intro he; rw [he] at hd; cases hd
  have hd2 : ¬(d = Char.ofNat 10) := by
    intro he; rw [he] at hd; cases hd
  have hd3 : (d.isAlpha || d = '_') = false := by
    rw [digit_not_alpha d hd]
    have : ¬(d = '_') := by intro he; rw [he] at hd; cases hd
    simp [this]
  obtain ⟨s2, hrun, herr⟩ := scanNumberGo_run (d :: ds) pre rest letter
    (LexState.startBuffer s0) ((LexState.startBuffer s0).text.length + 1)
    (by
      intro c hc
      rcases List.mem_cons.mp hc with rfl | hc
      · exact hd
      · exact hds c hc)
    hl (by simpa [LexState.startBuffer] using htext)
    (by simpa [LexState.startBuffer] using hpos)
    (by
      simp [LexState.startBuffer, htext]
      omega)
  refine ⟨s2, ?_, herr⟩
  simp only [LexState.readNext, List.get?_eq_getElem?, hget]
  rw [if_neg hd1, if_neg hd2, if_neg (by simp [hd3]), if_pos hd]
  unfold LexState.scanNumber
  have hline : (LexState.startBuffer s0).currentLine = s0.currentLine := rfl
  rw [hline] at hrun
  rw [hrun]

set_option maxRecDepth 40000 in
/-- Claim C8 (confirmed).  Whenever `read_next` starts at a digit run
immediately followed by an ASCII letter, it reports the
digit-then-letter error and latches the error flag — it never yields an
`INT` token for that run.  On the spec's program
`fn f(int j) \x7b 123abc = 1; \x7d` the lexer yields seven tokens and
then that error; feeding the lexed stream of that program into the
recursive-descent parser over the grammar that main.rs's pipeline
produces from G₀ yields a parse failure whose message wraps the lexical
error, with the `S` root node present in the partial tree. -/
theorem claim_C8 :
    (∀ (s0 : LexState) (pre ds rest : List Char) (d letter : Char),
      d.isDigit = true → (∀ c ∈ ds, c.isDigit = true) →
      letter.isAlpha = true →
      s0.text = pre ++ d :: ds ++ letter :: rest →
      s0.pos = pre.length →
      ∃ s2, LexState.readNext s0 =
        (.error ("unexpected char while reading number, line=" ++
          toString s0.currentLine ++ " char=" ++ letter.toString), s2) ∧
        s2.isError = true) ∧
    lexText c8Text = some [
      .ok ⟨0, 2, 1, "fn", .Fn⟩,
      .ok ⟨3, 4, 1, "f", .Id⟩,
      .ok ⟨4, 5, 1, "(", .LeftParen⟩,
      .ok ⟨5, 8, 1, "int", .Id⟩,
      .ok ⟨9, 10, 1, "j", .Id⟩,
      .ok ⟨10, 11, 1, ")", .RightParen⟩,
      .ok ⟨12, 13, 1, "\x7b", .LeftBraces⟩,
      .error ⟨17, 1, "unexpected char while reading number, line=1 char=a"⟩] ∧
    (Rules.eliminateLeftRecursions 20 grammar0).bind
      (fun g => Rules.makeReadyForRecursiveDecent 20 40 g 128) =
      some (.ok readyGrammar0) ∧
    rdErrorInfo ((lexText c8Text).bind (rdParse 100 readyGrammar0)) =
      some (0, some (.rule "S"),
        "lexer error, position: 17 line: 1, error: unexpected char while reading number, line=1 char=a") :=
  ⟨fun s0 pre ds rest d letter hd hds hl htext hpos =>
    readNext_digit_letter s0 pre ds rest d letter hd hds hl htext hpos,
    by decide, by decide, by decide⟩

theorem rootFrom_mono (nodes : Array RdNode) :
    ∀ (f f' i r : Nat), f ≤ f' →
      RdState.rootFrom nodes f i = some r →
      RdState.rootFrom nodes f' i = some r := by
  intro f
  induction f with
  | zero => intro f' i r _ h; cases h
  | succ n ih =>
    intro f' i r hle h
    rcases f' with _ | m
    · omega
    · unfold RdState.rootFrom at h ⊢
      rcases hget : nodes.get? i with _ | nd
      · simp only [hget] at h
        cases h
      · simp only [hget] at h ⊢
        rcases hpar : nd.parent with _ | p
        · simp only [hpar] at h ⊢
          exact h
        · simp only [hpar] at h ⊢
          exact ih m p r (by omega) h

theorem arenaStep_getElem? (nodes : Array RdNode) (focus newId : Nat)
    (nd : RdNode) (j : Nat) :
    ((nodes.modify focus
        (fun f => { f with children := f.children ++ [newId] })).push
      nd)[j]? =
      if j = nodes.size then some nd
      else if focus = j then (nodes[j]?).map
        (fun x => { x with children := x.children ++ [newId] })
      else nodes[j]? := by
  rw [Array.getElem?_push, Array.getElem?_modify, Array.size_modify]

theorem rootFrom_arenaStep (nodes : Array RdNode) (focus newId : Nat)
    (nd : RdNode)
    (hdesc : ∀ (i : Nat) (x : RdNode) (par : Nat), nodes[i]? = some x →
      x.parent = some par → par < i) :
    ∀ (fuel i r : Nat), i < nodes.size →
      RdState.rootFrom nodes fuel i = some r →
      RdState.rootFrom ((nodes.modify focus
        (fun f => { f with children := f.children ++ [newId] })).push
        nd) fuel i = some r := by
  intro fuel
  induction fuel with
  | zero => intro i r _ h; cases h
  | succ n ih =>
    intro i r hi h
    unfold RdState.rootFrom at h ⊢
    rcases hget : nodes.get? i with _ | x
    · simp only [hget] at h
      cases h
    · simp only [hget] at h
      have hget2 : ((nodes.modify focus
          (fun f => { f with children := f.children ++ [newId] })).push
          nd).get? i = some (if focus = i then
            { x with children := x.children ++ [newId] } else x) := by
        rw [Array.get?_eq_getElem?, arenaStep_getElem?,
          if_neg (by omega)]
        by_cases hf : focus = i
        · rw [if_pos hf]
          rw [Array.get?_eq_getElem?] at hget
          simp [hget, hf]
        · rw [if_neg hf]
          rw [Array.get?_eq_getElem?] at hget
          simp [hget, hf]
      simp only [hget2]
      have hpar2 : (if focus = i then
          { x with children := x.children ++ [newId] } else x).parent =
          x.parent := by
        by_cases hf : focus = i
        · simp [hf]
        · simp [hf]
      rw [hpar2]
      rcases hpar : x.parent with _ | p
      · simp only [hpar] at h ⊢
        exact h
      · simp only [hpar] at h ⊢
        have hx : nodes[i]? = some x := by
          rw [← Array.get?_eq_getElem?]
          exact hget
        exact ih p r (by
          have := hdesc i x p hx hpar
          omega) h

theorem errF_resInv (rootPart : RulePart) (s : RdState) (msg : Str)
    (h : rdInv rootPart s) : rdResInv rootPart (errF s msg) := by
  obtain ⟨h1, h2, h3, nd0, hnd0, hrp, hpar⟩ := h
  unfold errF RdState.popToRootId
  simp only [h3]
  exact ⟨rfl, nd0, hnd0, hrp, hpar⟩

theorem okParent_resInv (rootPart : RulePart) (s : RdState)
    (h : rdInv rootPart s) : rdResInv rootPart (okParent s) := by
  obtain ⟨h1, h2, h3, nd0, hnd0, hrp, hpar0⟩ := h
  unfold okParent RdState.popToParent
  rcases hget : s.nodes.get? s.focus with _ | nd
  · simp only [hget]
    trivial
  · simp only [hget]
    rcases hpar : nd.parent with _ | p
    · simp only [hpar]
      trivial
    · simp only [hpar]
      have hx : s.nodes[s.focus]? = some nd := by
        rw [← Array.get?_eq_getElem?]
        exact hget
      have hplt : p < s.focus := h2 s.focus nd p hx hpar
      refine ⟨?_, ?_, ?_, ?_⟩
      · show p < s.nodes.size
        omega
      · exact h2
      · show RdState.rootFrom s.nodes (s.nodes.size + 1) p = some 0
        have hstep := h3
        unfold RdState.rootFrom at hstep
        simp only [hget, hpar] at hstep
        exact rootFrom_mono s.nodes _ _ p 0 (by omega) hstep
      · exact ⟨nd0, hnd0, hrp, hpar0⟩

theorem arenaStep_pres (rootPart : RulePart) (s : RdState)
    (ndNew : RdNode) (cid : Nat) (hinv : rdInv rootPart s)
    (hpar : ndNew.parent = some s.focus ∨ ndNew.parent = none) :
    (∀ (i : Nat) (x : RdNode) (par : Nat),
      ((s.nodes.modify s.focus
        (fun f => { f with children := f.children ++ [cid] })).push
        ndNew)[i]? = some x → x.parent = some par → par < i) ∧
    RdState.rootFrom ((s.nodes.modify s.focus
        (fun f => { f with children := f.children ++ [cid] })).push
        ndNew) (s.nodes.size + 1) s.focus = some 0 ∧
    (∃ nd, ((s.nodes.modify s.focus
        (fun f => { f with children := f.children ++ [cid] })).push
        ndNew)[0]? = some nd ∧ nd.rulePart = rootPart ∧
        nd.parent = none) := by
  obtain ⟨h1, h2, h3, nd0, hnd0, hrp, hpar0⟩ := hinv
  refine ⟨?_, ?_, ?_⟩
  · intro i x par hget hp
    rw [arenaStep_getElem?] at hget
    by_cases hi : i = s.nodes.size
    · rw [if_pos hi] at hget
      obtain rfl : ndNew = x := by simpa using hget
      rcases hpar with hc | hc
      · rw [hc] at hp
        obtain rfl : s.focus = par := by simpa using hp
        omega
      · rw [hc] at hp
        cases hp
    · rw [if_neg hi] at hget
      by_cases hf : s.focus = i
      · rw [if_pos hf] at hget
        rcases hold : s.nodes[i]? with _ | y
        · rw [hold] at hget
          cases hget
        · rw [hold] at hget
          obtain rfl : { y with children := y.children ++ [cid] } = x := by
            simpa using hget
          exact h2 i y par hold (by simpa using hp)
      · rw [if_neg hf] at hget
        exact h2 i x par hget hp
  · exact rootFrom_arenaStep s.nodes s.focus cid ndNew h2 _ s.focus 0 h1 h3
  · have hsz : 0 < s.nodes.size := by omega
    refine ⟨if s.focus = 0 then
      { nd0 with children := nd0.children ++ [cid] } else nd0, ?_, ?_, ?_⟩
    · rw [arenaStep_getElem?, if_neg (by omega)]
      by_cases hf : s.focus = 0
      · rw [if_pos hf, if_pos hf, hnd0]
        rfl
      · rw [if_neg hf, if_neg hf]
        exact hnd0
    · by_cases hf : s.focus = 0
      · simp [hf, hrp]
      · simp [hf, hrp]
    · by_cases hf : s.focus = 0
      · simp [hf, hpar0]
      · simp [hf, hpar0]

theorem pushToRule_inv (rootPart : RulePart) (p : RdParser) (s : RdState)
    (name : Str) (s2 : RdState) (hinv : rdInv rootPart s)
    (h : RdParser.pushToRule p s name = some s2) : rdInv rootPart s2 := by
  unfold RdParser.pushToRule at h
  rcases hfind : p.rules.findRule name with _ | r
  · simp only [hfind] at h
    cases h
  · simp only [hfind] at h
    injection h with h
    obtain ⟨hd, hrt, hn0⟩ := arenaStep_pres rootPart s
      ⟨.rule name, if r.alternatives.isEmpty then none else some 0, none,
        some s.focus, [], s.nextNum⟩ s.nextNum hinv (Or.inl rfl)
    obtain ⟨h1, h2, h3, -⟩ := hinv
    subst h
    refine ⟨?_, ?_, ?_, ?_⟩
    · show s.nextNum < _
      simp [RdState.nextNum]
    · exact hd
    · show RdState.rootFrom _ (_ + 1) s.nextNum = some 0
      have hsz : ((s.nodes.modify s.focus
          (fun f => { f with children := f.children ++ [s.nextNum] })).push
          ⟨.rule name, if r.alternatives.isEmpty then none else some 0,
            none, some s.focus, [], s.nextNum⟩).size =
          s.nodes.size + 1 := by simp
      rw [hsz]
      unfold RdState.rootFrom
      have hnew : ((s.nodes.modify s.focus
          (fun f => { f with children := f.children ++ [s.nextNum] })).push
          ⟨.rule name, if r.alternatives.isEmpty then none else some 0,
            none, some s.focus, [], s.nextNum⟩).get? s.nextNum =
          some ⟨.rule name,
            if r.alternatives.isEmpty then none else some 0,
            none, some s.focus, [], s.nextNum⟩ := by
        rw [Array.get?_eq_getElem?, arenaStep_getElem?,
          if_pos (by simp [RdState.nextNum])]
      simp only [hnew]
      exact rootFrom_mono _ _ _ s.focus 0 (by omega) hrt
    · exact hn0

theorem matchTk_resInv (rootPart : RulePart) (s : RdState)
    (k : TokenKind) (hinv : rdInv rootPart s) :
    rdResInv rootPart (matchTk s k) := by
  obtain ⟨h1, h2, h3, hn⟩ := hinv
  have hinv' : rdInv rootPart s := ⟨h1, h2, h3, hn⟩
  unfold matchTk
  by_cases hp : (!s.hasPeek) = true
  · rw [if_pos hp]
    exact errF_resInv rootPart s _ hinv'
  · rw [if_neg hp]
    split
    · trivial
    · exact errF_resInv rootPart s _ hinv'
    · rename_i t heq
      by_cases hk : t.tokenKind = k
      · rw [if_pos hk]
        obtain ⟨hd, hrt, hn0⟩ := arenaStep_pres rootPart s
          ⟨.token k, none, some t, none, [], s.nextNum⟩ s.nextNum hinv'
          (Or.inr rfl)
        have hs2 : rdInv rootPart { s with
            nodes := (s.nodes.modify s.focus
              (fun f => { f with children := f.children ++ [s.nextNum] })).push
              ⟨.token k, none, some t, none, [], s.nextNum⟩,
            tokens := s.tokens.drop 1 } := by
          refine ⟨?_, hd, ?_, hn0⟩
          · show s.focus < _
            simp
            omega
          · show RdState.rootFrom _ (_ + 1) s.focus = some 0
            have hsz : ((s.nodes.modify s.focus
                (fun f => { f with children := f.children ++ [s.nextNum] })).push
                ⟨.token k, none, some t, none, [], s.nextNum⟩).size =
                s.nodes.size + 1 := by simp
            rw [hsz]
            exact rootFrom_mono _ _ _ s.focus 0 (by omega) hrt
        dsimp only
        split
        · trivial
        · exact hs2
        · exact errF_resInv rootPart _ _ hs2
      · rw [if_neg hk]
        exact errF_resInv rootPart s _ hinv'

theorem errRule_resInv (rootPart : RulePart) (p : RdParser)
    (s : RdState) (name : Str) (hinv : rdInv rootPart s) :
    rdResInv rootPart (errRule p s name) := by
  unfold errRule
  split
  · trivial
  · split
    · split
      · exact errF_resInv rootPart s _ hinv
      · split
        · exact errF_resInv rootPart s _ hinv
        · trivial
    · split
      · split
        · exact errF_resInv rootPart s _ hinv
        · trivial
      · exact errF_resInv rootPart s _ hinv

theorem rdSeq_resInv (rootPart : RulePart) (m : RdM) (f : RdState → RdM)
    (hm : rdResInv rootPart m)
    (hf : ∀ s, rdInv rootPart s → rdResInv rootPart (f s)) :
    rdResInv rootPart (rdSeq m f) := by
  rcases m with _ | m
  · trivial
  · rcases m with e | s
    · exact hm
    · exact hf s hm

/-- The routine dispatcher preserves the tree invariant: every success
keeps it, and every `ParseError` carries the arena unwound to the
start-symbol root node 0. -/
theorem rdRun_resInv (rootPart : RulePart) (p : RdParser) :
    ∀ (fuel : Nat) (routine : RdRoutine) (s0 : RdState),
      rdInv rootPart s0 → rdResInv rootPart (rdRun p fuel routine s0) := by
  intro fuel
  induction fuel with
  | zero => intro routine s0 _; trivial
  | succ n ih =>
    intro routine s0 hinv
    cases routine <;>
      (simp only [rdRun]
       repeat' (first
        | trivial
        | assumption
        | apply rdSeq_resInv
        | apply matchTk_resInv
        | apply okParent_resInv
        | apply errRule_resInv
        | apply ih
        | exact pushToRule_inv rootPart p s0 _ _ hinv (by assumption)
        | (intro s hs)
        | split))

/-- Any `ParseError` from the recursive-descent entry point carries the
partial tree unwound to node 0, which is the start-symbol root built
from the grammar's first rule. -/
theorem rdParse_error_root (fuel : Nat) (g : Rules)
    (tokens : List LexerResult) (e : ParseError) (r0 : Rule)
    (hhead : g.rules.head? = some r0)
    (h : rdParse fuel g tokens = some (.error e)) :
    e.root = 0 ∧ ∃ nd, e.nodes[0]? = some nd ∧
      nd.rulePart = .rule r0.name ∧ nd.parent = none := by
  unfold rdParse at h
  simp only [hhead] at h
  have hinv0 : rdInv (.rule r0.name)
      { nodes := #[(⟨.rule r0.name,
          if r0.alternatives.isEmpty then none else some 0,
          none, none, [], 0⟩ : RdNode)],
        focus := 0, tokens := tokens } := by
    refine ⟨by simp, ?_, ?_, ?_⟩
    · intro i x par hget hpar
      have hi : i = 0 := by
        by_contra hne
        rw [Array.getElem?_len_le _ (by simp; omega)] at hget
        cases hget
      subst hi
      obtain rfl : (⟨.rule r0.name,
          if r0.alternatives.isEmpty then none else some 0, none, none,
          [], 0⟩ : RdNode) = x := by simpa using hget
      cases hpar
    · unfold RdState.rootFrom
      simp [Array.get?_eq_getElem?]
    · refine ⟨⟨.rule r0.name,
        if r0.alternatives.isEmpty then none else some 0, none, none,
        [], 0⟩, by simp, rfl, rfl⟩
  rcases hpush : RdParser.pushToRule ⟨g, Rules.firstSet g,
      Rules.followSet g⟩
      { nodes := #[(⟨.rule r0.name,
          if r0.alternatives.isEmpty then none else some 0,
          none, none, [], 0⟩ : RdNode)],
        focus := 0, tokens := tokens } "S" with _ | st
  · simp only [hpush] at h
    cases h
  · simp only [hpush] at h
    have hs := pushToRule_inv (.rule r0.name) _ _ _ _ hinv0 hpush
    by_cases hpk : (!st.hasPeek) = true
    · rw [if_pos hpk] at h
      rcases hroot : st.popToRootId with _ | r
      · simp only [hroot] at h
        cases h
      · simp only [hroot] at h
        simp at h
    · rw [if_neg hpk] at h
      rcases hpf : RdParser.peekIsInRuleFirst ⟨g, Rules.firstSet g,
          Rules.followSet g⟩ st "fn_call" with _ | b
      · simp only [hpf] at h
        cases h
      · rcases b with _ | _
        · simp only [hpf] at h
          rcases hpf2 : RdParser.peekIsInRuleFirst ⟨g, Rules.firstSet g,
              Rules.followSet g⟩ st "fn_declaration" with _ | b2
          · simp only [hpf2] at h
            cases h
          · rcases b2 with _ | _ <;> simp only [hpf2] at h
            · have := errRule_resInv (.rule r0.name)
                ⟨g, Rules.firstSet g, Rules.followSet g⟩ st "S" hs
              rw [h] at this
              exact this
            · have := rdRun_resInv (.rule r0.name)
                ⟨g, Rules.firstSet g, Rules.followSet g⟩ fuel
                .fnDeclaration st hs
              rw [h] at this
              exact this
        · simp only [hpf] at h
          have := rdRun_resInv (.rule r0.name)
            ⟨g, Rules.firstSet g, Rules.followSet g⟩ fuel .fnCall st hs
          rw [h] at this
          exact this

/-- Claim C7 (corrected).  The recursive-descent parser's failures do
return a `ParseError` whose message and partial tree are as claimed: the
tree always contains the start-symbol root (node 0, built from the
grammar's first rule), as on `S -> ID` against the single token `fn`.
The backtracking parser, however, returns a bare message string on
failure — no `ParseError`, no partial tree. -/
theorem claim_C7 :
    (∀ (fuel : Nat) (g : Rules) (tokens : List LexerResult)
      (e : ParseError) (r0 : Rule),
      g.rules.head? = some r0 →
      rdParse fuel g tokens = some (.error e) →
      e.root = 0 ∧ ∃ nd, e.nodes[0]? = some nd ∧
        nd.rulePart = .rule r0.name ∧ nd.parent = none) ∧
    rdErrorInfo (rdParse 10 c7G [.ok fnTok]) = some (0,
      some (.rule "S"),
      "rule: S /// unexpected token, expecting one of tokens: id got: Token[L1 / 0~2-TokenKind[fn] / fn]") :=
  ⟨fun fuel g tokens e r0 hhead h =>
    rdParse_error_root fuel g tokens e r0 hhead h, by decide⟩

/-- Claim C7 counterexample.  A failing backtracking parse returns only
an error *string* (`Result<Rc<Node>, String>` in the source): on
`S -> ID` against the token `fn` it is the bare message
`no more alt on: S`, carrying no partial tree, while the same failing
recursive-descent parse does carry one. -/
theorem claim_C7_counterexample :
    backtrackingParse 50 c7G [fnTok] =
      some (.error "no more alt on: S") := by
  decide

end Toy
